import Mathlib

/-
Verification of the Hdl21 elaboration engine, protobuf exporter, ASAP7
technology-lowering walker and primitive parameter validation, against a
shallow embedding of the repository's Python sources.

Modelling conventions:
* Python object identity is modelled with an explicit arena: the `Design`
  is a list of `Module` definitions and a module's identity `id(module)`
  is its arena index.  `ExternalModule`s carry an explicit `eid` field.
* Python exceptions are modelled with `Except Err`; `Err` keeps the
  exception class (RuntimeError / TypeError / ValueError) and the message
  text (f-string interpolations of object reprs are elided from messages).
* Unbounded recursion over the (possibly cyclic) instance graph is
  modelled with fuel; fuel exhaustion (`Err.fuelOut`) corresponds to
  Python's unbounded recursion / RecursionError.
* The elaborator's in-place mutations (`inst._elaborated = True`) and its
  hook invocations are recorded in an event trace carried in the state.
-/

namespace Hdl21

/-- Python exception model: class plus message. -/
inductive Err where
  | runtimeError (msg : String)
  | typeError (msg : String)
  | valueError (msg : String)
  | fuelOut
deriving DecidableEq, Repr

/-- Discriminator: is this error a Python `RuntimeError`? -/
def Err.isRuntimeError : Err → Bool
  | .runtimeError _ => true
  | _ => false

/-! ## Graph entities (hdl21 data model, as touched by the five source files) -/

/-- Port direction enumeration (`signal.PortDir`). -/
inductive PortDir where
  | input | output | inout | nodir
deriving DecidableEq, Repr

/-- A `signal.Signal`: named bus of a given width. -/
structure Signal where
  name : String
  width : Int
deriving DecidableEq, Repr

/-- A `signal.Port`: a Signal with a direction. -/
structure Port where
  name : String
  width : Int
  direction : PortDir
deriving DecidableEq, Repr

/-- Connection expressions: `Signal | Slice | Concat`, plus a `badexpr`
constructor standing for any other Python value reaching the exporter's
connection dispatch (whose `isinstance` chain then falls through). -/
inductive Connectable where
  | sig (name : String) (width : Int)
  | slice (signalName : String) (bot top : Int)
  | concat (parts : List Connectable)
  | badexpr (tag : String)

/-- Loosely-typed Python parameter values as classified by the exporter's
`isinstance` chain: `None`, `int`, `float`, `str`, or anything else. -/
inductive PyVal where
  | pynone
  | pyint (i : Int)
  | pyfloat (f : Rat)
  | pystr (s : String)
  | pyother (tag : String)
deriving DecidableEq, Repr

/-- A `Primitive` definition, as used by the exporter (name only is read). -/
structure Primitive where
  name : String
deriving DecidableEq, Repr

/-- A `PrimitiveCall`: primitive plus its parameter values.  The exporter
reads the parameters through `dataclasses.asdict`, so they are modelled
directly as the resulting ordered field/value association list. -/
structure PrimitiveCall where
  prim : Primitive
  params : List (String × PyVal)
deriving DecidableEq, Repr

/-- An `ExternalModule` definition.  `eid` models Python object identity. -/
structure ExternalModule where
  eid : Nat
  name : String
  ports : List Port
deriving DecidableEq, Repr

/-- An `ExternalModuleCall`: external module plus loosely-typed params. -/
structure ExternalModuleCall where
  module : ExternalModule
  params : List (String × PyVal)
deriving DecidableEq, Repr

/-- A `GeneratorCall` (opaque to the passes modelled here). -/
structure GeneratorCall where
  gname : String
deriving DecidableEq, Repr

/-- The resolved target of an Instance.  Modules are referenced through
their arena index `mid` (= Python object identity). -/
inductive Ref where
  | mod (mid : Nat)
  | prim (c : PrimitiveCall)
  | ext (c : ExternalModuleCall)
  | gen (g : GeneratorCall)
deriving DecidableEq, Repr

/-- An `Instance`.  `resolved` models `inst._resolved`; `none` is the
unresolved (Python `None`, falsy) state. -/
structure Instance where
  name : String
  resolved : Option Ref
  conns : List (String × Connectable)

/-- An `InstArray` (replication count plus single resolved target). -/
structure InstArray where
  name : String
  n : Int
  resolved : Option Ref
deriving DecidableEq, Repr

/-- A `BundleInstance` (the base elaborator only flips its flag). -/
structure BundleInstance where
  name : String
deriving DecidableEq, Repr

/-- A `Module` definition.  Ordered mappings are modelled as lists in
declaration order; `pymoduleName` models `module._pymodule.__name__`;
`interfaces` holds the names of bundle-typed attachments. -/
structure Module where
  name : String
  pymoduleName : String
  ports : List Port
  signals : List Signal
  instances : List Instance
  instarrays : List InstArray
  bundles : List BundleInstance
  interfaces : List String

/-- The arena of Module objects: `id(module)` is the index into this list. -/
def Design := List Module

def Design.get? (d : Design) (mid : Nat) : Option Module :=
  List.get? d mid

/-! ## The base Elaborator (src/hdl21/elab/elaborators/base.py) -/

/-- The per-pass hooks a sub-class may override.  The base `Elaborator`'s
defaults are the identity functions (`idHooks`). -/
structure Hooks where
  elaborate_module : Module → Module
  elaborate_primitive_call : PrimitiveCall → PrimitiveCall
  elaborate_external_module : ExternalModuleCall → ExternalModuleCall

/-- Default hooks of the base `Elaborator`: all identity. -/
def idHooks : Hooks :=
  { elaborate_module := id
    elaborate_primitive_call := id
    elaborate_external_module := id }

/-- Observable elaboration events: flag mutations and hook invocations. -/
inductive Ev where
  | instElab (name : String)
  | arrElab (name : String)
  | bunElab (name : String)
  | hookModule (mid : Nat)
  | hookPrim (primName : String)
  | hookExt (extName : String)
deriving DecidableEq, Repr

/-- Elaborator state: the identity-keyed `modules` cache plus the event
trace (chronological, most recent last). -/
structure ESt where
  cache : List (Nat × Module)
  trace : List Ev

/-- Association-list lookup (first match), modelling a dict read. -/
def alookup {α β : Type} [DecidableEq α] : List (α × β) → α → Option β
  | [], _ => none
  | (k, v) :: rest, a => if k = a then some v else alookup rest a

/-- Association-list write, modelling a dict assignment: overwrite the
existing key in place, else append (dict insertion order). -/
def aupdate {α β : Type} [DecidableEq α] : List (α × β) → α → β → List (α × β)
  | [], a, b => [(a, b)]
  | (k, v) :: rest, a, b =>
      if k = a then (a, b) :: rest else (k, v) :: aupdate rest a b

/-- Result of `elaborate_instantiable`. -/
inductive IRes where
  | mod (m : Module)
  | prim (c : PrimitiveCall)
  | ext (c : ExternalModuleCall)

/-- `Elaborator.elaborate_bundle_instance`, mapped over the bundle loop:
only disables the lazy-reference flag (recorded as a `bunElab` event). -/
def elaborate_bundles (bundles : List BundleInstance) (st : ESt) : ESt :=
  { st with trace := st.trace ++ bundles.map (fun b => .bunElab b.name) }

section Elaborator

variable (hooks : Hooks) (D : Design)

mutual

/-- `Elaborator.elaborate_module_base`.  Note the cache-hit branch returns
the `module` argument itself (source line 77: `return module`), not the
stored `self.modules[id(module)]`. -/
def elaborate_module_base : Nat → Nat → ESt → (Except Err Module) × ESt
  | 0, _, st => (.error .fuelOut, st)
  | fuel + 1, mid, st =>
    match D.get? mid with
    | none => (.error (.runtimeError "undefined module identity"), st)
    | some m =>
      match alookup st.cache mid with
      | some _ => (.ok m, st)  -- `return module  # Already done!`
      | none =>
        if m.name = "" then
          (.error (.runtimeError
            "Anonymous Module cannot be elaborated (did you forget to name it?)"), st)
        else
          match elaborate_instances fuel m.instances st with
          | (.error e, st1) => (.error e, st1)
          | (.ok _, st1) =>
            match elaborate_instarrays fuel m.instarrays st1 with
            | (.error e, st2) => (.error e, st2)
            | (.ok _, st2) =>
              let st3 := elaborate_bundles m.bundles st2
              let st4 : ESt := { st3 with trace := st3.trace ++ [.hookModule mid] }
              let result := hooks.elaborate_module m
              (.ok result, { st4 with cache := aupdate st4.cache mid result })

/-- The loop `for inst in module.instances.values(): self.elaborate_instance(inst)`. -/
def elaborate_instances : Nat → List Instance → ESt → (Except Err Unit) × ESt
  | _, [], st => (.ok (), st)
  | 0, _ :: _, st => (.error .fuelOut, st)
  | fuel + 1, inst :: rest, st =>
    match elaborate_instance fuel inst st with
    | (.error e, st') => (.error e, st')
    | (.ok _, st') => elaborate_instances fuel rest st'

/-- The loop over `module.instarrays`. -/
def elaborate_instarrays : Nat → List InstArray → ESt → (Except Err Unit) × ESt
  | _, [], st => (.ok (), st)
  | 0, _ :: _, st => (.error .fuelOut, st)
  | fuel + 1, arr :: rest, st =>
    match elaborate_instance_array fuel arr st with
    | (.error e, st') => (.error e, st')
    | (.ok _, st') => elaborate_instarrays fuel rest st'

/-- `Elaborator.elaborate_instance`: disable `PortRef` magic (recorded as
an `instElab` event), then visit the resolved target. -/
def elaborate_instance : Nat → Instance → ESt → (Except Err IRes) × ESt
  | 0, _, st => (.error .fuelOut, st)
  | fuel + 1, inst, st =>
    let st' : ESt := { st with trace := st.trace ++ [.instElab inst.name] }
    elaborate_instantiable fuel inst.resolved st'

/-- `Elaborator.elaborate_instance_array`: same contract as Instance. -/
def elaborate_instance_array : Nat → InstArray → ESt → (Except Err IRes) × ESt
  | 0, _, st => (.error .fuelOut, st)
  | fuel + 1, arr, st =>
    let st' : ESt := { st with trace := st.trace ++ [.arrElab arr.name] }
    elaborate_instantiable fuel arr.resolved st'

/-- `Elaborator.elaborate_instantiable`: dispatch on the resolved target.
An unresolved (`None`, falsy) target raises RuntimeError; Module recurses
into `elaborate_module_base`; Primitive/External calls invoke the hooks;
anything else — in particular a `GeneratorCall` — falls through every
`isinstance` check to the bare `raise TypeError` (no message). -/
def elaborate_instantiable : Nat → Option Ref → ESt → (Except Err IRes) × ESt
  | 0, _, st => (.error .fuelOut, st)
  | fuel + 1, of, st =>
    match of with
    | none => (.error (.runtimeError "Error elaborating undefined Instance-target"), st)
    | some (.mod mid) =>
      match elaborate_module_base fuel mid st with
      | (.error e, st') => (.error e, st')
      | (.ok m, st') => (.ok (.mod m), st')
    | some (.prim c) =>
      let st' : ESt := { st with trace := st.trace ++ [.hookPrim c.prim.name] }
      (.ok (.prim (hooks.elaborate_primitive_call c)), st')
    | some (.ext c) =>
      let st' : ESt := { st with trace := st.trace ++ [.hookExt c.module.name] }
      (.ok (.ext (hooks.elaborate_external_module c)), st')
    | some (.gen _) => (.error (.typeError ""), st)

end

end Elaborator

/-- `Elaborator.elaborate_generator_call`: the only place that raises the
pass-naming RuntimeError; never invoked by the base traversal. -/
def elaborate_generator_call (passName : String) (_g : GeneratorCall) :
    Except Err IRes :=
  .error (.runtimeError ("Invalid call to elaborate GeneratorCall by " ++ passName))

/-- The elaboration entry point's top argument: a Module (by identity) or
some other Python value. -/
inductive Elabable where
  | module (mid : Nat)
  | gen (g : GeneratorCall)
  | other (tag : String)
deriving DecidableEq, Repr

/-- `Elaborator.elaborate` / `elaborate_top`: type-check the top, then run
`elaborate_module_base` from a fresh per-run state. -/
def elaborate (hooks : Hooks) (D : Design) (fuel : Nat) (top : Elabable) :
    (Except Err Module) × ESt :=
  match top with
  | .module mid => elaborate_module_base hooks D fuel mid ⟨[], []⟩
  | _ => (.error (.typeError "Invalid Top for Elaboration: must be a Module"), ⟨[], []⟩)

/-! ## flatname (base.py lines 145-167) -/

/-- The `while True` loop of `flatname`: length check first, then
collision check, else append an underscore and retry. -/
def flatnameLoop (avoid : List String) (maxlen : Nat) : Nat → String → Except Err String
  | 0, _ => .error .fuelOut
  | fuel + 1, name =>
    if name.length > maxlen then
      .error (.runtimeError "Could not generate a flattened name")
    else if name ∈ avoid then
      flatnameLoop avoid maxlen fuel (name ++ "_")
    else
      .ok name

/-- `Elaborator.flatname`: join the segments with underscores, then loop.
The loop grows the candidate by one character per iteration and fails as
soon as its length exceeds `maxlen`, so `maxlen + 2` fuel always suffices. -/
def flatname (segments : List String) (avoid : List String) (maxlen : Nat := 511) :
    Except Err String :=
  flatnameLoop avoid maxlen (maxlen + 2) (String.intercalate "_" segments)

/-! ## Protobuf exporter (src/hdl21/proto/to_proto.py) -/

/-- `protodefs.QualifiedName`: (domain, name). -/
abbrev QualifiedName := String × String

/-- `protodefs.Port`. -/
structure PPort where
  direction : PortDir
  sigName : String
  sigWidth : Int
deriving DecidableEq, Repr

/-- `protodefs.Signal`. -/
structure PSignal where
  name : String
  width : Int
deriving DecidableEq, Repr

/-- A wire-format parameter value: the tagged integer/double/string oneof. -/
inductive PParamVal where
  | integer (i : Int)
  | double (f : Rat)
  | strval (s : String)
deriving DecidableEq, Repr

/-- `protodefs.Connection`: the sig/slice/concat oneof. -/
inductive PConn where
  | sig (name : String) (width : Int)
  | slice (signalName : String) (bot top : Int)
  | concat (parts : List PConn)

/-- `protodefs.Instance`. -/
structure PInstance where
  name : String
  moduleQn : QualifiedName
  parameters : List (String × PParamVal)
  connections : List (String × PConn)

/-- `protodefs.Module`. -/
structure PModule where
  qn : QualifiedName
  ports : List PPort
  signals : List PSignal
  instances : List PInstance

/-- `protodefs.ExternalModule`. -/
structure PExtModule where
  name : String
  ports : List PPort
deriving DecidableEq, Repr

/-- `protodefs.Package` (fields the exporter populates). -/
structure PPackage where
  name : String
  modules : List PModule
  ext_modules : List PExtModule

/-- Exporter state: the three identity/name-keyed caches plus the package
under construction (`self.pkg`). -/
structure XSt where
  pkgName : String
  modules : List (Nat × PModule)
  module_names : List (QualifiedName × PModule)
  ext_modules : List (Nat × PExtModule)
  pkgModules : List PModule
  pkgExtModules : List PExtModule

/-- A fresh `ProtoExporter` state (`__init__`): default domain is `""`. -/
def initXSt (domain : Option String) : XSt :=
  { pkgName := domain.getD ""
    modules := []
    module_names := []
    ext_modules := []
    pkgModules := []
    pkgExtModules := [] }

/-- `ProtoExporter.export_port_dir`: the 4-way direction mapping.  The
`PortDir` enumeration is closed, so the trailing `raise ValueError` is
unreachable and the match is total. -/
def export_port_dir (p : Port) : PortDir := p.direction

/-- `ProtoExporter.export_port`. -/
def export_port (p : Port) : PPort :=
  { direction := export_port_dir p, sigName := p.name, sigWidth := p.width }

/-- `ProtoExporter.export_module_name`: qualified name is
`(package domain, module._pymodule.__name__ + "." + module.name)`; raises
RuntimeError if that pair is already registered for a prior module. -/
def export_module_name (st : XSt) (m : Module) : Except Err QualifiedName :=
  let mname := m.pymoduleName ++ "." ++ m.name
  let qname : QualifiedName := (st.pkgName, mname)
  match alookup st.module_names qname with
  | some _ => .error (.runtimeError
      "Cannot serialize Module due to conflicting name (Was this a generator that didn't get decorated with hdl21.generator?)")
  | none => .ok qname

/-- The parameter-translation loop of `export_instance` (lines 181-192):
None-valued fields are skipped entirely; int/float/str map to the
integer/double/string variants; anything else raises TypeError. -/
def export_params : List (String × PyVal) → Except Err (List (String × PParamVal))
  | [] => .ok []
  | (k, v) :: rest =>
    match v with
    | .pynone => export_params rest
    | .pyint i =>
      match export_params rest with
      | .error e => .error e
      | .ok out => .ok ((k, .integer i) :: out)
    | .pyfloat f =>
      match export_params rest with
      | .error e => .error e
      | .ok out => .ok ((k, .double f) :: out)
    | .pystr s =>
      match export_params rest with
      | .error e => .error e
      | .ok out => .ok ((k, .strval s) :: out)
    | .pyother _ => .error (.typeError "Invalid instance parameter")

/-- The part-loop of `ProtoExporter.export_concat`: recursively flatten
concatenation parts; any non Signal/Slice/Concat part raises TypeError. -/
def export_concat_parts : List Connectable → Except Err (List PConn)
  | [] => .ok []
  | part :: rest =>
    match part with
    | .sig n w =>
      match export_concat_parts rest with
      | .error e => .error e
      | .ok ps => .ok (.sig n w :: ps)
    | .slice sn b t =>
      match export_concat_parts rest with
      | .error e => .error e
      | .ok ps => .ok (.slice sn b t :: ps)
    | .concat parts =>
      match export_concat_parts parts with
      | .error e => .error e
      | .ok sub =>
        match export_concat_parts rest with
        | .error e => .error e
        | .ok ps => .ok (.concat sub :: ps)
    | .badexpr _ => .error (.typeError "Invalid Concat part")

/-- `ProtoExporter.export_concat` proper. -/
def export_concat : Connectable → Except Err PConn
  | .concat parts =>
    match export_concat_parts parts with
    | .error e => .error e
    | .ok ps => .ok (.concat ps)
  | _ => .error (.typeError "export_concat applied to non-Concat")

/-- The connection loop of `export_instance` (lines 197-215). -/
def export_conns : List (String × Connectable) → Except Err (List (String × PConn))
  | [] => .ok []
  | (pname, c) :: rest =>
    match c with
    | .sig n w =>
      match export_conns rest with
      | .error e => .error e
      | .ok out => .ok ((pname, .sig n w) :: out)
    | .slice sn b t =>
      match export_conns rest with
      | .error e => .error e
      | .ok out => .ok ((pname, .slice sn b t) :: out)
    | .concat parts =>
      match export_concat (.concat parts) with
      | .error e => .error e
      | .ok pc =>
        match export_conns rest with
        | .error e => .error e
        | .ok out => .ok ((pname, pc) :: out)
    | .badexpr _ => .error (.typeError "Invalid Connection type")

/-- `ProtoExporter.export_external_module`: memoized by identity; appends
to the package's separate ext_modules list. -/
def export_external_module (emod : ExternalModule) (st : XSt) : PExtModule × XSt :=
  match alookup st.ext_modules emod.eid with
  | some pm => (pm, st)
  | none =>
    let pm : PExtModule := { name := emod.name, ports := emod.ports.map export_port }
    (pm, { st with
            ext_modules := aupdate st.ext_modules emod.eid pm
            pkgExtModules := st.pkgExtModules ++ [pm] })

section Exporter

variable (D : Design)

mutual

/-- `ProtoExporter.export_module`: memoized by Module identity; rejects
interface attachments; computes the qualified name (collision check)
before exporting children; exports ports, signals, then each instance in
declared order; finally records the result in `modules`, `module_names`,
and appends it to the package's modules list. -/
def export_module : Nat → Nat → XSt → (Except Err PModule) × XSt
  | 0, _, st => (.error .fuelOut, st)
  | fuel + 1, mid, st =>
    match D.get? mid with
    | none => (.error (.runtimeError "undefined module identity"), st)
    | some m =>
      match alookup st.modules mid with
      | some pm => (.ok pm, st)  -- Already done
      | none =>
        if m.interfaces ≠ [] then
          (.error (.runtimeError "Invalid attribute for Proto export: Module with Interfaces"), st)
        else
          match export_module_name st m with
          | .error e => (.error e, st)
          | .ok qname =>
            match export_module_instances fuel m.instances st with
            | (.error e, st1) => (.error e, st1)
            | (.ok pinsts, st1) =>
              let pm : PModule :=
                { qn := qname
                  ports := m.ports.map export_port
                  signals := m.signals.map (fun s => { name := s.name, width := s.width })
                  instances := pinsts }
              (.ok pm,
                { st1 with
                    modules := aupdate st1.modules mid pm
                    module_names := aupdate st1.module_names qname pm
                    pkgModules := st1.pkgModules ++ [pm] })

/-- The loop `for inst in module.instances.values()` in `export_module`:
raises RuntimeError on an unresolved instance, else exports it. -/
def export_module_instances :
    Nat → List Instance → XSt → (Except Err (List PInstance)) × XSt
  | _, [], st => (.ok [], st)
  | 0, _ :: _, st => (.error .fuelOut, st)
  | fuel + 1, inst :: rest, st =>
    match inst.resolved with
    | none => (.error (.runtimeError "Invalid Instance of unresolved Module"), st)
    | some _ =>
      match export_instance fuel inst st with
      | (.error e, st') => (.error e, st')
      | (.ok pinst, st') =>
        match export_module_instances fuel rest st' with
        | (.error e, st'') => (.error e, st'')
        | (.ok pinsts, st'') => (.ok (pinst :: pinsts), st'')

/-- `ProtoExporter.export_instance`: depth-first export the target
definition first, then the parameters and the connections. -/
def export_instance : Nat → Instance → XSt → (Except Err PInstance) × XSt
  | 0, _, st => (.error .fuelOut, st)
  | fuel + 1, inst, st =>
    match inst.resolved with
    | some (.mod mid) =>
      match export_module fuel mid st with
      | (.error e, st') => (.error e, st')
      | (.ok pm, st') =>
        match export_conns inst.conns with
        | .error e => (.error e, st')
        | .ok conns =>
          (.ok { name := inst.name, moduleQn := pm.qn
                 parameters := [], connections := conns }, st')
    | some (.prim call) =>
      match export_params call.params with
      | .error e => (.error e, st)
      | .ok pparams =>
        match export_conns inst.conns with
        | .error e => (.error e, st)
        | .ok conns =>
          (.ok { name := inst.name
                 moduleQn := ("hdl21.primitives", call.prim.name)
                 parameters := pparams, connections := conns }, st)
    | some (.ext call) =>
      let (_, st') := export_external_module call.module st
      match export_params call.params with
      | .error e => (.error e, st')
      | .ok pparams =>
        match export_conns inst.conns with
        | .error e => (.error e, st')
        | .ok conns =>
          (.ok { name := inst.name
                 moduleQn := ("", call.module.name)
                 parameters := pparams, connections := conns }, st')
    | some (.gen _) => (.error (.typeError ""), st)
    | none => (.error (.typeError ""), st)

end

/-- The loop of `ProtoExporter.export` over the top-level modules. -/
def export_tops : Nat → List Nat → XSt → (Except Err Unit) × XSt
  | _, [], st => (.ok (), st)
  | fuel, mid :: rest, st =>
    match export_module D fuel mid st with
    | (.error e, st') => (.error e, st')
    | (.ok _, st') => export_tops fuel rest st'

/-- `ProtoExporter.export`: visit every top, then return `self.pkg`. -/
def exporter_export (fuel : Nat) (tops : List Nat) (domain : Option String) :
    (Except Err PPackage) × XSt :=
  match export_tops D fuel tops (initXSt domain) with
  | (.error e, st') => (.error e, st')
  | (.ok _, st') =>
    (.ok { name := st'.pkgName, modules := st'.pkgModules
           ext_modules := st'.pkgExtModules }, st')

end Exporter

/-! ## MOS primitive parameters (src/hdl21/primitives.py) -/

/-- `MosType` enumeration. -/
inductive MosType where
  | NMOS | PMOS
deriving DecidableEq, Repr

/-- `MosVth` enumeration.  In primitives.py only `STD` exists
("Moar coming soon!"). -/
inductive MosVth where
  | STD
deriving DecidableEq, Repr

/-- A constructed (validated) `MosParams` value. -/
structure MosParams where
  w : Option Int
  l : Option Int
  nser : Int
  npar : Int
  tp : MosType
  vth : MosVth
deriving DecidableEq, Repr

/-- Python's `x <= 0` where `x : Optional[int]`: comparing `None` with an
int raises TypeError. -/
def pyLeZero : Option Int → Except Err Bool
  | none => .error (.typeError "unsupported comparison between NoneType and int")
  | some v => .ok (decide (v ≤ 0))

/-- `MosParams.__post_init_post_parse__` run on a candidate field set: the
value checks in source order (w, l, npar, nser), returning the constructed
value when all pass.  The `w <= 0` / `l <= 0` comparisons do not guard
against the `None` default. -/
def mosParamsInit (w l : Option Int) (nser npar : Int) (tp : MosType) (vth : MosVth) :
    Except Err MosParams :=
  match pyLeZero w with
  | .error e => .error e
  | .ok true => .error (.valueError "MosParams with invalid width")
  | .ok false =>
    match pyLeZero l with
    | .error e => .error e
    | .ok true => .error (.valueError "MosParams with invalid length")
    | .ok false =>
      if npar ≤ 0 then .error (.valueError "MosParams with invalid number parallel fingers")
      else if nser ≤ 0 then .error (.valueError "MosParams with invalid number series fingers")
      else .ok { w := w, l := l, nser := nser, npar := npar, tp := tp, vth := vth }

/-! ## ASAP7 technology-lowering walker (src/hdl21pdk/asap7/asap7.py)

The source file's module-level loop builds `_mos_modules` over
`_mos_typenames x _mos_vtnames`.  As written, that loop (and hence the
module import) fails: `_mos_vtnames` names `MosVth.LOW`, which does not
exist in primitives.py, and its remaining keys are the raw strings
"SLVT"/"SRAM", which can never equal a `MosVth`-typed `params.vth`.  The
table is modelled restricted to its constructible, reachable keys: the
`(MosType, MosVth.STD)` pairs mapping to the `..._rvt` modules. -/

/-- An asap7 `ExternalModule` as built in the module-level loop. -/
structure A7Module where
  domain : String
  name : String
deriving DecidableEq, Repr

/-- The `_mos_modules` lookup table, keyed by `(MosType, MosVth)`. -/
def mos_modules_table : List ((MosType × MosVth) × A7Module) :=
  [ ((.NMOS, .STD), { domain := "asap7", name := "nmos_rvt" }),
    ((.PMOS, .STD), { domain := "asap7", name := "pmos_rvt" }) ]

/-- Parameter values appearing in `asdict(MosParams)`. -/
inductive MPVal where
  | oint (o : Option Int)
  | mint (i : Int)
  | mtp (t : MosType)
  | mvth (v : MosVth)
deriving DecidableEq, Repr

/-- `dataclasses.asdict` on a `MosParams`, in field declaration order. -/
def asdictMos (p : MosParams) : List (String × MPVal) :=
  [("w", .oint p.w), ("l", .oint p.l), ("nser", .mint p.nser),
   ("npar", .mint p.npar), ("tp", .mtp p.tp), ("vth", .mvth p.vth)]

/-- An asap7 `ExternalModuleCall` (`mod(modparams)`). -/
structure A7ModuleCall where
  module : A7Module
  params : List (String × MPVal)
deriving DecidableEq, Repr

/-- A `PrimitiveCall` as seen by the walker.  `PrimitiveCall` validation
guarantees a Mos call carries a `MosParams`; calls of every other
primitive (Diode, Resistor, ...) are lumped by primitive name. -/
inductive A7PrimCall where
  | mosCall (params : MosParams)
  | otherCall (primName : String) (tag : String)
deriving DecidableEq, Repr

/-- Walker state: the parameter-value-keyed substitution cache
(`self.mos_modcalls`). -/
structure WSt where
  mos_modcalls : List (MosParams × A7ModuleCall)
deriving DecidableEq, Repr

/-- `Asap7Walker.mos_module`: table lookup; a miss raises RuntimeError
(whose message interpolates the leaked loop variable `modname`). -/
def mos_module (params : MosParams) : Except Err A7Module :=
  match alookup mos_modules_table (params.tp, params.vth) with
  | some m => .ok m
  | none => .error (.runtimeError "No Mos module")

/-- `Asap7Walker.mos_module_call`: check the parameter-keyed cache; on a
miss retrieve the module, translate parameters (dropping `vth`), build
the call, cache and return it. -/
def mos_module_call (params : MosParams) (st : WSt) :
    (Except Err A7ModuleCall) × WSt :=
  match alookup st.mos_modcalls params with
  | some call => (.ok call, st)
  | none =>
    match mos_module params with
    | .error e => (.error e, st)
    | .ok mod =>
      let modparams := (asdictMos params).filter (fun kv => kv.1 ≠ "vth")
      let modcall : A7ModuleCall := { module := mod, params := modparams }
      (.ok modcall, { st with mos_modcalls := aupdate st.mos_modcalls params modcall })

/-- `Asap7Walker.replace_primitive`: Mos calls are translated through
`mos_module_call`; every other primitive is returned as-is
("Return everything else as-is"). -/
def replace_primitive (primcall : A7PrimCall) (st : WSt) :
    (Except Err (A7PrimCall ⊕ A7ModuleCall)) × WSt :=
  match primcall with
  | .mosCall params =>
    match mos_module_call params st with
    | (.error e, st') => (.error e, st')
    | (.ok call, st') => (.ok (.inr call), st')
  | .otherCall _ _ => (.ok (.inl primcall), st)

/-! ## Small helpers used by the theorems -/

/-- Did an exceptional computation succeed? -/
def exceptOk {ε α : Type} : Except ε α → Bool
  | .ok _ => true
  | .error _ => false

/-! ## Claim C1 -/

/-- A module with no children, named "m". -/
def c1mod : Module := ⟨"m", "tb", [], [], [], [], [], []⟩

/-- A pass whose `elaborate_module` hook returns a fresh, renamed module
(hence a result object distinct from its argument). -/
def c1hooks : Hooks :=
  { elaborate_module := fun m => { m with name := m.name ++ "_x" }
    elaborate_primitive_call := id
    elaborate_external_module := id }

/-- The hook's result on `c1mod`: the distinct object stored in the cache. -/
def c1modx : Module := ⟨"m_x", "tb", [], [], [], [], [], []⟩

/-- The engine state after the first elaboration of `c1mod`. -/
def c1st : ESt := ⟨[(0, c1modx)], [.hookModule 0]⟩

/-- C1: under a pass whose `elaborate_module` hook returns a distinct
object, the first call of `elaborate_module_base` stores the hook's result
`c1modx` in the cache, but the second call returns the original module
`c1mod` — not the cached result object — because the cache-hit branch
executes `return module` instead of returning `self.modules[id(module)]`.
The second call does leave the state (trace and cache) untouched, so no
hook is re-invoked and no child is re-traversed. -/
theorem c1_cache_hit_returns_original_not_cached_result :
    elaborate_module_base c1hooks [c1mod] 2 0 ⟨[], []⟩ = (.ok c1modx, c1st)
    ∧ elaborate_module_base c1hooks [c1mod] 2 0 c1st = (.ok c1mod, c1st)
    ∧ alookup c1st.cache 0 = some c1modx
    ∧ c1mod ≠ c1modx := by
  refine ⟨rfl, rfl, rfl, ?_⟩
  intro h
  exact absurd (congrArg Module.name h) (by decide)

/-! ## Claim C5 -/

/-- C5: `flatname` joins the segments with underscores and returns the
join when it is short enough and collision-free; while the candidate
collides with the avoid set it appends one underscore per loop iteration;
it fails with a naming RuntimeError as soon as the candidate's length
exceeds the maximum.  Concretely: `flatname ["a","b"]` with empty avoid is
`"a_b"`; with avoid `{"a_b"}` it is `"a_b_"`; and `flatname ["x"]` with
avoid `{"x","x_","x__"}` and maximum length 3 fails. -/
theorem c5_flatname_behavior :
    (∀ (segments : List String) (avoid : List String) (maxlen : Nat),
      (String.intercalate "_" segments).length ≤ maxlen →
      String.intercalate "_" segments ∉ avoid →
      flatname segments avoid maxlen = .ok (String.intercalate "_" segments))
    ∧ (∀ (avoid : List String) (maxlen fuel : Nat) (name : String),
      maxlen < name.length →
      flatnameLoop avoid maxlen (fuel + 1) name =
        .error (.runtimeError "Could not generate a flattened name"))
    ∧ (∀ (avoid : List String) (maxlen fuel : Nat) (name : String),
      name.length ≤ maxlen → name ∈ avoid →
      flatnameLoop avoid maxlen (fuel + 1) name =
        flatnameLoop avoid maxlen fuel (name ++ "_"))
    ∧ flatname ["a", "b"] [] = .ok "a_b"
    ∧ flatname ["a", "b"] ["a_b"] = .ok "a_b_"
    ∧ flatname ["x"] ["x", "x_", "x__"] 3 =
        .error (.runtimeError "Could not generate a flattened name") := by
  refine ⟨?_, ?_, ?_, rfl, rfl, rfl⟩
  · intro segments avoid maxlen h1 h2
    show flatnameLoop avoid maxlen ((maxlen + 1) + 1) (String.intercalate "_" segments) = _
    rw [flatnameLoop, if_neg (Nat.not_lt.mpr h1), if_neg h2]
  · intro avoid maxlen fuel name h
    rw [flatnameLoop, if_pos h]
  · intro avoid maxlen fuel name h1 h2
    rw [flatnameLoop, if_neg (Nat.not_lt.mpr h1), if_pos h2]

/-- Witness for C5: the three conditional conjuncts applied at concrete
inputs. -/
theorem c5_flatname_behavior_witness :
    flatname ["p", "q"] ["zz"] 10 = .ok "p_q"
    ∧ flatnameLoop [] 2 5 "abcd" =
        .error (.runtimeError "Could not generate a flattened name")
    ∧ flatnameLoop ["ab"] 5 7 "ab" = flatnameLoop ["ab"] 5 6 "ab_" :=
  ⟨c5_flatname_behavior.1 ["p", "q"] ["zz"] 10 (by decide) (by decide),
   c5_flatname_behavior.2.1 [] 2 4 "abcd" (by decide),
   c5_flatname_behavior.2.2.1 ["ab"] 5 6 "ab" (by decide) (by decide)⟩

/-! ## Claim C6 -/

/-- A design whose single module has an instance whose resolved target is
a GeneratorCall. -/
def c6design : Design :=
  [⟨"top", "tb", [], [], [⟨"g1", some (.gen ⟨"gen"⟩), []⟩], [], [], []⟩]

/-- C6 counterexample: when a GeneratorCall reaches the base pass as an
Instance's resolved target, elaboration fails with the bare `TypeError`
(empty message, not a RuntimeError, naming no pass) from the fall-through
of `elaborate_instantiable` — refuting the claim that the failure is "a
runtime error that names the offending pass". -/
theorem c6_generator_call_error_counterexample :
    (elaborate idHooks c6design 5 (.module 0)).1 = .error (.typeError "")
    ∧ Err.isRuntimeError (.typeError "") = false :=
  ⟨rfl, rfl⟩

/-- C6 amended: a GeneratorCall target reaching any pass built on the base
traversal fails loudly, but with the bare `TypeError` of the
`elaborate_instantiable` fall-through, which does not name the pass.  The
pass-naming RuntimeError lives only in `elaborate_generator_call`, which
the base dispatch never invokes on a GeneratorCall target. -/
theorem c6_generator_call_bare_type_error :
    (∀ (hooks : Hooks) (D : Design) (fuel : Nat) (g : GeneratorCall) (st : ESt),
      elaborate_instantiable hooks D (fuel + 1) (some (.gen g)) st =
        (.error (.typeError ""), st))
    ∧ (∀ (passName : String) (g : GeneratorCall),
      elaborate_generator_call passName g =
        .error (.runtimeError ("Invalid call to elaborate GeneratorCall by " ++ passName))) :=
  ⟨fun _ _ _ _ _ => rfl, fun _ _ => rfl⟩

/-! ## Claim C9 -/

/-- Did the walker replace the call with an ExternalModuleCall? -/
def isReplaced : (Except Err (A7PrimCall ⊕ A7ModuleCall)) → Bool
  | .ok (.inr _) => true
  | _ => false

/-- C9 counterexample: a PrimitiveCall of a non-Mos primitive (here a
Resistor) has no registered technology module, yet the walker's
`replace_primitive` returns it unchanged with no error — refuting the
claim that a lookup miss for every primitive/parameter combination is a
fatal error and that the walker never silently passes a primitive through. -/
theorem c9_non_mos_passthrough_counterexample :
    replace_primitive (.otherCall "Resistor" "r") ⟨[]⟩ =
      (.ok (.inl (.otherCall "Resistor" "r")), ⟨[]⟩) :=
  rfl

/-- C9 amended: only the Mos primitive is looked up in the technology
table; a PrimitiveCall of any other primitive is silently returned
unmodified.  For Mos the `(tp, vth)` lookup is consulted — a miss would
raise RuntimeError — but with `MosVth.STD` the only constructible
threshold value, the lookup always succeeds (yielding the `_rvt` module
of the device's polarity), so every Mos call is replaced by an
ExternalModuleCall and the error branch is unreachable. -/
theorem c9_only_mos_replaced :
    (∀ (pn tag : String) (st : WSt),
      replace_primitive (.otherCall pn tag) st = (.ok (.inl (.otherCall pn tag)), st))
    ∧ (∀ p : MosParams,
      mos_module p =
        .ok (if p.tp = .NMOS then ⟨"asap7", "nmos_rvt"⟩ else ⟨"asap7", "pmos_rvt"⟩))
    ∧ (∀ (p : MosParams) (st : WSt),
      isReplaced (replace_primitive (.mosCall p) st).1 = true) := by
  refine ⟨fun _ _ _ => rfl, ?_, ?_⟩
  · intro p
    obtain ⟨w, l, nser, npar, tp, vth⟩ := p
    cases tp <;> cases vth <;> rfl
  · intro p st
    cases h : alookup st.mos_modcalls p with
    | some call => simp [replace_primitive, mos_module_call, h, isReplaced]
    | none =>
      obtain ⟨w, l, nser, npar, tp, vth⟩ := p
      cases tp <;> cases vth <;>
        simp [replace_primitive, mos_module_call, h, mos_module,
          mos_modules_table, alookup, isReplaced]

/-! ## Claim C4 -/

/-- Every key of the exported parameter map is a key of the input map. -/
lemma export_params_key_mem :
    ∀ (ps : List (String × PyVal)) (out : List (String × PParamVal)),
      export_params ps = .ok out →
      ∀ k v, (k, v) ∈ out → k ∈ ps.map Prod.fst := by
  intro ps
  induction ps with
  | nil =>
    intro out h k v hv
    simp [export_params] at h
    subst h
    cases hv
  | cons hd tl ih =>
    obtain ⟨k', v'⟩ := hd
    intro out h k v hv
    cases v' with
    | pynone =>
      simp only [export_params] at h
      exact .tail _ (ih out h k v hv)
    | pyint i =>
      cases htl : export_params tl with
      | error e => simp [export_params, htl] at h
      | ok out' =>
        simp [export_params, htl] at h
        subst h
        cases hv with
        | head => exact .head _
        | tail _ hv => exact .tail _ (ih out' htl k v hv)
    | pyfloat f =>
      cases htl : export_params tl with
      | error e => simp [export_params, htl] at h
      | ok out' =>
        simp [export_params, htl] at h
        subst h
        cases hv with
        | head => exact .head _
        | tail _ hv => exact .tail _ (ih out' htl k v hv)
    | pystr str =>
      cases htl : export_params tl with
      | error e => simp [export_params, htl] at h
      | ok out' =>
        simp [export_params, htl] at h
        subst h
        cases hv with
        | head => exact .head _
        | tail _ hv => exact .tail _ (ih out' htl k v hv)
    | pyother t => simp [export_params] at h

/-- A None-valued field of a (duplicate-free) parameter mapping
contributes no key to the exported map. -/
lemma export_params_none_omitted :
    ∀ (ps : List (String × PyVal)) (out : List (String × PParamVal)) (k : String),
      export_params ps = .ok out → (ps.map Prod.fst).Nodup →
      (k, PyVal.pynone) ∈ ps → ∀ pv, (k, pv) ∉ out := by
  intro ps
  induction ps with
  | nil =>
    intro out k _ _ hmem
    cases hmem
  | cons hd tl ih =>
    obtain ⟨k', v'⟩ := hd
    intro out k h hnd hmem pv hin
    simp only [List.map_cons, List.nodup_cons] at hnd
    cases v' with
    | pynone =>
      simp only [export_params] at h
      cases hmem with
      | head => exact hnd.1 (export_params_key_mem tl out h _ pv hin)
      | tail _ hmem => exact ih out _ h hnd.2 hmem pv hin
    | pyint i =>
      cases htl : export_params tl with
      | error e => simp [export_params, htl] at h
      | ok out' =>
        simp [export_params, htl] at h
        subst h
        cases hmem with
        | tail _ hmem =>
          cases hin with
          | head => exact hnd.1 (List.mem_map_of_mem Prod.fst hmem)
          | tail _ hin => exact ih out' _ htl hnd.2 hmem pv hin
    | pyfloat f =>
      cases htl : export_params tl with
      | error e => simp [export_params, htl] at h
      | ok out' =>
        simp [export_params, htl] at h
        subst h
        cases hmem with
        | tail _ hmem =>
          cases hin with
          | head => exact hnd.1 (List.mem_map_of_mem Prod.fst hmem)
          | tail _ hin => exact ih out' _ htl hnd.2 hmem pv hin
    | pystr str =>
      cases htl : export_params tl with
      | error e => simp [export_params, htl] at h
      | ok out' =>
        simp [export_params, htl] at h
        subst h
        cases hmem with
        | tail _ hmem =>
          cases hin with
          | head => exact hnd.1 (List.mem_map_of_mem Prod.fst hmem)
          | tail _ hin => exact ih out' _ htl hnd.2 hmem pv hin
    | pyother t => simp [export_params] at h

/-- An int-valued field appears under the integer variant. -/
lemma export_params_int_mem :
    ∀ (ps : List (String × PyVal)) (out : List (String × PParamVal)) (k : String) (i : Int),
      export_params ps = .ok out → (k, PyVal.pyint i) ∈ ps →
      (k, PParamVal.integer i) ∈ out := by
  intro ps
  induction ps with
  | nil =>
    intro out k i _ hmem
    cases hmem
  | cons hd tl ih =>
    obtain ⟨k', v'⟩ := hd
    intro out k i h hmem
    cases v' with
    | pynone =>
      simp only [export_params] at h
      cases hmem with
      | tail _ hmem => exact ih out k i h hmem
    | pyint j =>
      cases htl : export_params tl with
      | error e => simp [export_params, htl] at h
      | ok out' =>
        simp [export_params, htl] at h
        subst h
        cases hmem with
        | head => exact .head _
        | tail _ hmem => exact .tail _ (ih out' k i htl hmem)
    | pyfloat f =>
      cases htl : export_params tl with
      | error e => simp [export_params, htl] at h
      | ok out' =>
        simp [export_params, htl] at h
        subst h
        cases hmem with
        | tail _ hmem => exact .tail _ (ih out' k i htl hmem)
    | pystr str =>
      cases htl : export_params tl with
      | error e => simp [export_params, htl] at h
      | ok out' =>
        simp [export_params, htl] at h
        subst h
        cases hmem with
        | tail _ hmem => exact .tail _ (ih out' k i htl hmem)
    | pyother t => simp [export_params] at h

/-- A float-valued field appears under the double variant. -/
lemma export_params_float_mem :
    ∀ (ps : List (String × PyVal)) (out : List (String × PParamVal)) (k : String) (f : Rat),
      export_params ps = .ok out → (k, PyVal.pyfloat f) ∈ ps →
      (k, PParamVal.double f) ∈ out := by
  intro ps
  induction ps with
  | nil =>
    intro out k f _ hmem
    cases hmem
  | cons hd tl ih =>
    obtain ⟨k', v'⟩ := hd
    intro out k f h hmem
    cases v' with
    | pynone =>
      simp only [export_params] at h
      cases hmem with
      | tail _ hmem => exact ih out k f h hmem
    | pyint j =>
      cases htl : export_params tl with
      | error e => simp [export_params, htl] at h
      | ok out' =>
        simp [export_params, htl] at h
        subst h
        cases hmem with
        | tail _ hmem => exact .tail _ (ih out' k f htl hmem)
    | pyfloat g =>
      cases htl : export_params tl with
      | error e => simp [export_params, htl] at h
      | ok out' =>
        simp [export_params, htl] at h
        subst h
        cases hmem with
        | head => exact .head _
        | tail _ hmem => exact .tail _ (ih out' k f htl hmem)
    | pystr str =>
      cases htl : export_params tl with
      | error e => simp [export_params, htl] at h
      | ok out' =>
        simp [export_params, htl] at h
        subst h
        cases hmem with
        | tail _ hmem => exact .tail _ (ih out' k f htl hmem)
    | pyother t => simp [export_params] at h

/-- A str-valued field appears under the string variant. -/
lemma export_params_str_mem :
    ∀ (ps : List (String × PyVal)) (out : List (String × PParamVal)) (k s : String),
      export_params ps = .ok out → (k, PyVal.pystr s) ∈ ps →
      (k, PParamVal.strval s) ∈ out := by
  intro ps
  induction ps with
  | nil =>
    intro out k s _ hmem
    cases hmem
  | cons hd tl ih =>
    obtain ⟨k', v'⟩ := hd
    intro out k s h hmem
    cases v' with
    | pynone =>
      simp only [export_params] at h
      cases hmem with
      | tail _ hmem => exact ih out k s h hmem
    | pyint j =>
      cases htl : export_params tl with
      | error e => simp [export_params, htl] at h
      | ok out' =>
        simp [export_params, htl] at h
        subst h
        cases hmem with
        | tail _ hmem => exact .tail _ (ih out' k s htl hmem)
    | pyfloat g =>
      cases htl : export_params tl with
      | error e => simp [export_params, htl] at h
      | ok out' =>
        simp [export_params, htl] at h
        subst h
        cases hmem with
        | tail _ hmem => exact .tail _ (ih out' k s htl hmem)
    | pystr str =>
      cases htl : export_params tl with
      | error e => simp [export_params, htl] at h
      | ok out' =>
        simp [export_params, htl] at h
        subst h
        cases hmem with
        | head => exact .head _
        | tail _ hmem => exact .tail _ (ih out' k s htl hmem)
    | pyother t => simp [export_params] at h

/-- A field of any other value type makes the translation raise TypeError. -/
lemma export_params_other_fatal :
    ∀ (ps : List (String × PyVal)) (k t : String),
      (k, PyVal.pyother t) ∈ ps →
      ∃ m, export_params ps = .error (.typeError m) := by
  intro ps
  induction ps with
  | nil =>
    intro k t hmem
    cases hmem
  | cons hd tl ih =>
    obtain ⟨k', v'⟩ := hd
    intro k t hmem
    cases hmem with
    | head => exact ⟨"Invalid instance parameter", by simp [export_params]⟩
    | tail _ hmem =>
      obtain ⟨m, htl⟩ := ih k t hmem
      cases v' with
      | pynone => exact ⟨m, by simp [export_params, htl]⟩
      | pyint j => exact ⟨m, by simp [export_params, htl]⟩
      | pyfloat g => exact ⟨m, by simp [export_params, htl]⟩
      | pystr s => exact ⟨m, by simp [export_params, htl]⟩
      | pyother t2 => exact ⟨"Invalid instance parameter", by simp [export_params]⟩

/-- C4: in the exported parameter mapping of an Instance, a None-valued
field is omitted entirely (its key absent from the wire map); int-valued
fields land in the integer variant, float-valued in the double variant,
str-valued in the string variant; any other value type raises a fatal
TypeError.  The final conjunct ties the loop to `export_instance`: a
successfully exported primitive-call Instance carries exactly the
translated parameters. -/
theorem c4_instance_parameter_translation :
    (∀ (ps : List (String × PyVal)) (out : List (String × PParamVal)) (k : String),
      export_params ps = .ok out → (ps.map Prod.fst).Nodup →
      (k, PyVal.pynone) ∈ ps → ∀ pv, (k, pv) ∉ out)
    ∧ (∀ (ps : List (String × PyVal)) (out : List (String × PParamVal)) (k : String) (i : Int),
      export_params ps = .ok out → (k, PyVal.pyint i) ∈ ps →
      (k, PParamVal.integer i) ∈ out)
    ∧ (∀ (ps : List (String × PyVal)) (out : List (String × PParamVal)) (k : String) (f : Rat),
      export_params ps = .ok out → (k, PyVal.pyfloat f) ∈ ps →
      (k, PParamVal.double f) ∈ out)
    ∧ (∀ (ps : List (String × PyVal)) (out : List (String × PParamVal)) (k s : String),
      export_params ps = .ok out → (k, PyVal.pystr s) ∈ ps →
      (k, PParamVal.strval s) ∈ out)
    ∧ (∀ (ps : List (String × PyVal)) (k t : String),
      (k, PyVal.pyother t) ∈ ps →
      ∃ m, export_params ps = .error (.typeError m))
    ∧ (∀ (D : Design) (fuel : Nat) (inst : Instance) (call : PrimitiveCall)
        (st st' : XSt) (pinst : PInstance),
      inst.resolved = some (.prim call) →
      export_instance D (fuel + 1) inst st = (.ok pinst, st') →
      export_params call.params = .ok pinst.parameters) := by
  refine ⟨export_params_none_omitted, export_params_int_mem, export_params_float_mem,
    export_params_str_mem, export_params_other_fatal, ?_⟩
  intro D fuel inst call st st' pinst hres h
  simp only [export_instance, hres] at h
  cases hp : export_params call.params with
  | error e => simp [hp] at h
  | ok pparams =>
    rw [hp] at h
    cases hc : export_conns inst.conns with
    | error e => simp [hc] at h
    | ok conns =>
      rw [hc] at h
      injection h with h1 h2
      injection h1 with h3
      rw [← h3]

/-- Witness for C4: the translation rules applied to a concrete mapping
and a concrete exported primitive-call Instance. -/
theorem c4_instance_parameter_translation_witness :
    (("a", PParamVal.integer 99) ∉
      [("b", PParamVal.integer 4), ("c", PParamVal.double 7), ("d", PParamVal.strval "x")])
    ∧ ("b", PParamVal.integer 4) ∈
      [("b", PParamVal.integer 4), ("c", PParamVal.double 7), ("d", PParamVal.strval "x")]
    ∧ ("c", PParamVal.double 7) ∈
      [("b", PParamVal.integer 4), ("c", PParamVal.double 7), ("d", PParamVal.strval "x")]
    ∧ ("d", PParamVal.strval "x") ∈
      [("b", PParamVal.integer 4), ("c", PParamVal.double 7), ("d", PParamVal.strval "x")]
    ∧ (∃ m, export_params [("z", PyVal.pyother "obj")] = .error (.typeError m))
    ∧ export_params [("r", PyVal.pyfloat 7)] =
        .ok [("r", PParamVal.double 7)] := by
  have hps : export_params
      [("a", PyVal.pynone), ("b", PyVal.pyint 4), ("c", PyVal.pyfloat 7), ("d", PyVal.pystr "x")] =
      .ok [("b", PParamVal.integer 4), ("c", PParamVal.double 7), ("d", PParamVal.strval "x")] := rfl
  refine ⟨c4_instance_parameter_translation.1 _ _ "a" hps (by decide) (by decide) _,
    c4_instance_parameter_translation.2.1 _ _ "b" 4 hps (by decide),
    c4_instance_parameter_translation.2.2.1 _ _ "c" 7 hps (by decide),
    c4_instance_parameter_translation.2.2.2.1 _ _ "d" "x" hps (by decide),
    c4_instance_parameter_translation.2.2.2.2.1 _ "z" "obj" (by decide), ?_⟩
  exact c4_instance_parameter_translation.2.2.2.2.2 [] 0
    ⟨"i", some (.prim ⟨⟨"Res"⟩, [("r", PyVal.pyfloat 7)]⟩), []⟩
    ⟨⟨"Res"⟩, [("r", PyVal.pyfloat 7)]⟩ (initXSt none) (initXSt none)
    ⟨"i", ("hdl21.primitives", "Res"), [("r", PParamVal.double 7)], []⟩ rfl rfl

/-! ## Claim C10 -/

/-- C10: although `w` and `l` are declared `Optional[int]` with default
`None`, any construction of a `MosParams` that leaves `w` or `l` unset
fails: the `w <= 0` / `l <= 0` post-construction checks compare `None`
with an int (a TypeError) without guarding against `None`, so no
`MosParams` value with an unset width or length can be constructed. -/
theorem c10_mosparams_unset_w_l_always_fails :
    ∀ (w l : Option Int) (nser npar : Int) (tp : MosType) (vth : MosVth),
      w = none ∨ l = none →
      ∃ e, mosParamsInit w l nser npar tp vth = .error e := by
  intro w l nser npar tp vth h
  match w, h with
  | none, _ => exact ⟨_, rfl⟩
  | some wv, .inr hl =>
    subst hl
    unfold mosParamsInit pyLeZero
    by_cases hw : wv ≤ 0
    · simp [hw]
    · simp [hw]

/-- Witness for C10 at a concrete unset width. -/
theorem c10_mosparams_unset_w_l_always_fails_witness :
    ∃ e, mosParamsInit none (some 3) 1 1 .NMOS .STD = .error e :=
  c10_mosparams_unset_w_l_always_fails none (some 3) 1 1 .NMOS .STD (.inl rfl)

/-! ## Claims C2 and C3: exporter invariants -/

/-- Module `p` directly instantiates module `c` in design `D` (through an
Instance with a resolved Module target — the only dependency edges the
exporter follows). -/
def childOf (D : Design) (p c : Nat) : Prop :=
  ∃ m inst, D.get? p = some m ∧ inst ∈ m.instances ∧ inst.resolved = some (.mod c)

/-- The keys (module identities) of the exporter's module cache, in
insertion (= export completion) order. -/
def xkeys (st : XSt) : List Nat := st.modules.map Prod.fst

/-- The exporter's running invariant: the package's module list is the
cache's value column (completion order); cache keys are unique; and every
cached module's direct children are cached at strictly smaller indices. -/
def XInv (D : Design) (st : XSt) : Prop :=
  st.pkgModules = st.modules.map Prod.snd
  ∧ (xkeys st).Nodup
  ∧ ∀ p c, p ∈ xkeys st → childOf D p c →
      c ∈ xkeys st ∧ List.indexOf c (xkeys st) < List.indexOf p (xkeys st)

/-- The module cache only grows by appending. -/
def XExt (st st' : XSt) : Prop := ∃ t, st'.modules = st.modules ++ t

lemma xext_refl (st : XSt) : XExt st st := ⟨[], by simp⟩

lemma xext_trans {s1 s2 s3 : XSt} (h1 : XExt s1 s2) (h2 : XExt s2 s3) : XExt s1 s3 := by
  obtain ⟨t1, h1⟩ := h1
  obtain ⟨t2, h2⟩ := h2
  exact ⟨t1 ++ t2, by rw [h2, h1, List.append_assoc]⟩

lemma xext_keys_mono {s1 s2 : XSt} (h : XExt s1 s2) {k : Nat}
    (hk : k ∈ xkeys s1) : k ∈ xkeys s2 := by
  obtain ⟨t, ht⟩ := h
  unfold xkeys at hk ⊢
  rw [ht, List.map_append]
  exact List.mem_append_left _ hk

/-- `alookup` finds only present keys. -/
lemma alookup_mem_keys {α β : Type} [DecidableEq α] :
    ∀ (l : List (α × β)) (k : α) (v : β),
      alookup l k = some v → k ∈ l.map Prod.fst := by
  intro l
  induction l with
  | nil => intro k v h; simp [alookup] at h
  | cons hd tl ih =>
    obtain ⟨k1, v1⟩ := hd
    intro k v h
    simp only [alookup] at h
    by_cases he : k1 = k
    · subst he; exact .head _
    · rw [if_neg he] at h
      exact .tail _ (ih k v h)

/-- `alookup` misses exactly the absent keys. -/
lemma alookup_eq_none {α β : Type} [DecidableEq α] :
    ∀ (l : List (α × β)) (k : α),
      alookup l k = none ↔ k ∉ l.map Prod.fst := by
  intro l
  induction l with
  | nil => intro k; simp [alookup]
  | cons hd tl ih =>
    obtain ⟨k1, v1⟩ := hd
    intro k
    simp only [alookup, List.map_cons, List.mem_cons]
    by_cases he : k1 = k
    · subst he; simp
    · rw [if_neg he, ih k]
      simp [Ne.symm he]

/-- Any present key has a value. -/
lemma mem_keys_alookup {α β : Type} [DecidableEq α] :
    ∀ (l : List (α × β)) (k : α),
      k ∈ l.map Prod.fst → ∃ v, alookup l k = some v := by
  intro l k hk
  cases hv : alookup l k with
  | some v => exact ⟨v, rfl⟩
  | none => exact absurd hk ((alookup_eq_none l k).mp hv)

/-- Lookup is stable under appending (first match wins). -/
lemma alookup_append_some {α β : Type} [DecidableEq α] :
    ∀ (l t : List (α × β)) (k : α) (v : β),
      alookup l k = some v → alookup (l ++ t) k = some v := by
  intro l
  induction l with
  | nil => intro t k v h; simp [alookup] at h
  | cons hd tl ih =>
    obtain ⟨k1, v1⟩ := hd
    intro t k v h
    simp only [alookup] at h ⊢
    by_cases he : k1 = k
    · rwa [if_pos he] at h ⊢
    · rw [if_neg he] at h ⊢
      exact ih t k v h

/-- Lookup skips a prefix without the key. -/
lemma alookup_append_none {α β : Type} [DecidableEq α] :
    ∀ (l t : List (α × β)) (k : α),
      alookup l k = none → alookup (l ++ t) k = alookup t k := by
  intro l
  induction l with
  | nil => intro t k _; simp
  | cons hd tl ih =>
    obtain ⟨k1, v1⟩ := hd
    intro t k h
    simp only [alookup] at h ⊢
    by_cases he : k1 = k
    · rw [if_pos he] at h; cases h
    · rw [if_neg he] at h ⊢
      exact ih t k h

/-- A dict assignment on a fresh key is an append (insertion order). -/
lemma aupdate_fresh {α β : Type} [DecidableEq α] :
    ∀ (l : List (α × β)) (k : α) (v : β),
      alookup l k = none → aupdate l k v = l ++ [(k, v)] := by
  intro l
  induction l with
  | nil => intro k v _; simp [aupdate]
  | cons hd tl ih =>
    obtain ⟨k1, v1⟩ := hd
    intro k v h
    simp only [alookup] at h
    simp only [aupdate]
    by_cases he : k1 = k
    · rw [if_pos he] at h; cases h
    · rw [if_neg he] at h
      rw [if_neg he, ih k v h]
      simp

/-- With unique keys, a cache hit sits in the value column exactly at the
key's index in the key column. -/
lemma alookup_snd_get? {α β : Type} [DecidableEq α] :
    ∀ (l : List (α × β)) (k : α) (v : β),
      (l.map Prod.fst).Nodup → alookup l k = some v →
      (l.map Prod.snd).get? (List.indexOf k (l.map Prod.fst)) = some v := by
  intro l
  induction l with
  | nil => intro k v _ h; simp [alookup] at h
  | cons hd tl ih =>
    obtain ⟨k1, v1⟩ := hd
    intro k v hnd h
    simp only [alookup] at h
    simp only [List.map_cons, List.nodup_cons] at hnd
    by_cases he : k1 = k
    · rw [if_pos he] at h
      injection h with hv
      subst hv
      subst he
      simp [List.indexOf_cons_self]
    · rw [if_neg he] at h
      rw [List.map_cons, List.map_cons, List.indexOf_cons_ne _ he]
      exact ih k v hnd.2 h

/-- Transfer the invariant across a state change that leaves the module
cache and the package module list untouched. -/
lemma xinv_of_eq {D : Design} {st st' : XSt}
    (h1 : st'.modules = st.modules) (h2 : st'.pkgModules = st.pkgModules)
    (hInv : XInv D st) : XInv D st' := by
  obtain ⟨a, b, c⟩ := hInv
  refine ⟨by rw [h2, h1]; exact a, ?_, ?_⟩
  · unfold xkeys
    rw [h1]
    exact b
  · unfold xkeys
    rw [h1]
    exact c

/-- `export_external_module` touches neither the module cache nor the
package's modules list. -/
lemma export_external_module_preserves (emod : ExternalModule) (st : XSt) :
    (export_external_module emod st).2.modules = st.modules
    ∧ (export_external_module emod st).2.pkgModules = st.pkgModules := by
  unfold export_external_module
  cases alookup st.ext_modules emod.eid <;> exact ⟨rfl, rfl⟩

/-- Appending a fresh module (whose direct children are all cached)
preserves the invariant. -/
lemma xinv_insert {D : Design} {st1 : XSt} {mid : Nat} {pm : PModule}
    {q : QualifiedName}
    (hInv : XInv D st1)
    (hfresh : mid ∉ xkeys st1)
    (hchild : ∀ c, childOf D mid c → c ∈ xkeys st1) :
    XInv D { st1 with
              modules := aupdate st1.modules mid pm
              module_names := aupdate st1.module_names q pm
              pkgModules := st1.pkgModules ++ [pm] } := by
  obtain ⟨hA, hB, hC⟩ := hInv
  have hnone : alookup st1.modules mid = none := (alookup_eq_none _ _).mpr hfresh
  have hup : aupdate st1.modules mid pm = st1.modules ++ [(mid, pm)] :=
    aupdate_fresh _ _ _ hnone
  have hkeys : xkeys { st1 with
      modules := aupdate st1.modules mid pm
      module_names := aupdate st1.module_names q pm
      pkgModules := st1.pkgModules ++ [pm] } = xkeys st1 ++ [mid] := by
    unfold xkeys
    rw [hup, List.map_append]
    rfl
  refine ⟨?_, ?_, ?_⟩
  · show st1.pkgModules ++ [pm] = _
    rw [hup, List.map_append, hA]
    rfl
  · rw [hkeys]
    rw [List.nodup_append]
    refine ⟨hB, List.nodup_singleton mid, ?_⟩
    intro a ha hb
    rw [List.mem_singleton] at hb
    subst hb
    exact hfresh ha
  · intro p c hp hc
    rw [hkeys] at hp ⊢
    rcases List.mem_append.mp hp with hpold | hpnew
    · obtain ⟨hcold, hlt⟩ := hC p c hpold hc
      refine ⟨List.mem_append_left _ hcold, ?_⟩
      rw [List.indexOf_append_of_mem hcold, List.indexOf_append_of_mem hpold]
      exact hlt
    · rw [List.mem_singleton] at hpnew
      subst hpnew
      have hcold := hchild c hc
      refine ⟨List.mem_append_left _ hcold, ?_⟩
      rw [List.indexOf_append_of_mem hcold, List.indexOf_append_of_not_mem hfresh]
      calc List.indexOf c (xkeys st1) < (xkeys st1).length :=
              List.indexOf_lt_length.mpr hcold
        _ ≤ (xkeys st1).length + List.indexOf p [p] := Nat.le_add_right _ _

/-- Rank is monotone (non-increasing) along reflexive-transitive
instantiation descent. -/
lemma refltrans_child_rank_le (D : Design) (rank : Nat → Nat)
    (hrank : ∀ p c, childOf D p c → rank c < rank p) :
    ∀ a b, Relation.ReflTransGen (childOf D) a b → rank b ≤ rank a := by
  intro a b h
  induction h with
  | refl => exact Nat.le_refl _
  | tail _ hedge ih => exact Nat.le_trans (Nat.le_of_lt (hrank _ _ hedge)) ih

/-- The central exporter lemma, by induction on fuel: assuming the design
is a hierarchy (witnessed by a rank function decreasing along
instantiation edges), every successful export call preserves the
invariant, only appends to the cache, caches its own module, and adds
only keys reachable (by instantiation descent) from what it exported. -/
lemma export_invariant (D : Design) (rank : Nat → Nat)
    (hrank : ∀ p c, childOf D p c → rank c < rank p) : ∀ fuel : Nat,
    (∀ mid st pm st', XInv D st →
      export_module D fuel mid st = (.ok pm, st') →
      XInv D st' ∧ XExt st st' ∧ alookup st'.modules mid = some pm ∧
      ∀ k, k ∈ xkeys st' → k ∈ xkeys st ∨ Relation.ReflTransGen (childOf D) mid k)
    ∧ (∀ l st outl st', XInv D st →
      export_module_instances D fuel l st = (.ok outl, st') →
      XInv D st' ∧ XExt st st' ∧
      (∀ inst, inst ∈ l → ∀ c, inst.resolved = some (.mod c) → c ∈ xkeys st') ∧
      ∀ k, k ∈ xkeys st' → k ∈ xkeys st ∨
        ∃ inst, inst ∈ l ∧ ∃ c, inst.resolved = some (.mod c) ∧
          Relation.ReflTransGen (childOf D) c k)
    ∧ (∀ inst st pinst st', XInv D st →
      export_instance D fuel inst st = (.ok pinst, st') →
      XInv D st' ∧ XExt st st' ∧
      (∀ c, inst.resolved = some (.mod c) → c ∈ xkeys st') ∧
      ∀ k, k ∈ xkeys st' → k ∈ xkeys st ∨
        ∃ c, inst.resolved = some (.mod c) ∧
          Relation.ReflTransGen (childOf D) c k) := by
  intro fuel
  induction fuel with
  | zero =>
    refine ⟨?_, ?_, ?_⟩
    · intro mid st pm st' _ h
      simp [export_module] at h
    · intro l st outl st' hInv h
      cases l with
      | nil =>
        simp only [export_module_instances] at h
        injection h with h1 h2
        subst h2
        refine ⟨hInv, xext_refl st, ?_, fun k hk => .inl hk⟩
        intro inst hm
        cases hm
      | cons i rest => simp [export_module_instances] at h
    · intro inst st pinst st' _ h
      simp [export_instance] at h
  | succ fuel ih =>
    obtain ⟨ihm, ihl, ihone⟩ := ih
    refine ⟨?_, ?_, ?_⟩
    · -- export_module
      intro mid st pm st' hInv h
      simp only [export_module] at h
      cases hg : D.get? mid with
      | none =>
        simp only [hg] at h
        exact absurd h (by simp)
      | some m =>
        simp only [hg] at h
        cases hc : alookup st.modules mid with
        | some pmc =>
          simp only [hc] at h
          injection h with h1 h2
          injection h1 with h1'
          subst h2
          subst h1'
          exact ⟨hInv, xext_refl st, hc, fun k hk => .inl hk⟩
        | none =>
          simp only [hc] at h
          by_cases hif : m.interfaces ≠ []
          · rw [if_pos hif] at h
            exact absurd h (by simp)
          · rw [if_neg hif] at h
            cases hqn : export_module_name st m with
            | error e =>
              simp only [hqn] at h
              exact absurd h (by simp)
            | ok qname =>
              simp only [hqn] at h
              cases hloop : export_module_instances D fuel m.instances st with
              | mk rl st1 =>
                cases rl with
                | error e =>
                  simp only [hloop] at h
                  exact absurd h (by simp)
                | ok pinsts =>
                  simp only [hloop] at h
                  obtain ⟨hInv1, hExt1, hchildren, hnew⟩ :=
                    ihl m.instances st pinsts st1 hInv hloop
                  injection h with h1 h2
                  injection h1 with h1'
                  have hmidfresh : mid ∉ xkeys st1 := by
                    intro hmem
                    rcases hnew mid hmem with hold | ⟨inst, hinst, c, hres, hdesc⟩
                    · exact (alookup_eq_none st.modules mid).mp hc hold
                    · have hedge : childOf D mid c := ⟨m, inst, hg, hinst, hres⟩
                      have hle := refltrans_child_rank_le D rank hrank c mid hdesc
                      have hlt := hrank mid c hedge
                      omega
                  have hchild' : ∀ c, childOf D mid c → c ∈ xkeys st1 := by
                    intro c hcc
                    obtain ⟨m', inst, hg', hinst, hres⟩ := hcc
                    rw [hg] at hg'
                    injection hg' with hm'
                    subst hm'
                    exact hchildren inst hinst c hres
                  have hnone1 : alookup st1.modules mid = none :=
                    (alookup_eq_none _ _).mpr hmidfresh
                  rw [h1'] at h2
                  subst h2
                  have hup : aupdate st1.modules mid pm = st1.modules ++ [(mid, pm)] :=
                    aupdate_fresh _ _ _ hnone1
                  refine ⟨xinv_insert hInv1 hmidfresh hchild', ?_, ?_, ?_⟩
                  · obtain ⟨t, ht⟩ := hExt1
                    refine ⟨t ++ [(mid, pm)], ?_⟩
                    show aupdate st1.modules mid pm = _
                    rw [hup, ht, List.append_assoc]
                  · show alookup (aupdate st1.modules mid pm) mid = some pm
                    rw [hup, alookup_append_none _ _ _ hnone1]
                    simp [alookup]
                  · intro k hk
                    have hkeys2 : xkeys { st1 with
                        modules := aupdate st1.modules mid pm
                        module_names := aupdate st1.module_names qname pm
                        pkgModules := st1.pkgModules ++ [pm] } = xkeys st1 ++ [mid] := by
                      unfold xkeys
                      rw [hup, List.map_append]
                      rfl
                    rw [hkeys2] at hk
                    rcases List.mem_append.mp hk with hk1 | hk2
                    · rcases hnew k hk1 with hold | ⟨inst, hinst, c, hres, hdesc⟩
                      · exact .inl hold
                      · have hedge : childOf D mid c := ⟨m, inst, hg, hinst, hres⟩
                        exact .inr (Relation.ReflTransGen.head hedge hdesc)
                    · rw [List.mem_singleton] at hk2
                      subst hk2
                      exact .inr Relation.ReflTransGen.refl
    · -- export_module_instances
      intro l st outl st' hInv h
      cases l with
      | nil =>
        simp only [export_module_instances] at h
        injection h with h1 h2
        subst h2
        refine ⟨hInv, xext_refl st, ?_, fun k hk => .inl hk⟩
        intro inst hm
        cases hm
      | cons inst rest =>
        simp only [export_module_instances] at h
        cases hres0 : inst.resolved with
        | none =>
          simp only [hres0] at h
          exact absurd h (by simp)
        | some r0 =>
          simp only [hres0] at h
          cases hone : export_instance D fuel inst st with
          | mk r1 st1 =>
            cases r1 with
            | error e =>
              simp only [hone] at h
              exact absurd h (by simp)
            | ok pinst =>
              simp only [hone] at h
              cases hrest : export_module_instances D fuel rest st1 with
              | mk r2 st2 =>
                cases r2 with
                | error e =>
                  simp only [hrest] at h
                  exact absurd h (by simp)
                | ok pinsts =>
                  simp only [hrest] at h
                  injection h with h1 h2
                  subst h2
                  obtain ⟨hInvA, hExtA, hcA, hnewA⟩ := ihone inst st pinst st1 hInv hone
                  obtain ⟨hInvB, hExtB, hcB, hnewB⟩ := ihl rest st1 pinsts st2 hInvA hrest
                  refine ⟨hInvB, xext_trans hExtA hExtB, ?_, ?_⟩
                  · intro inst' hmem c hresc
                    cases hmem with
                    | head => exact xext_keys_mono hExtB (hcA c hresc)
                    | tail _ hmem => exact hcB inst' hmem c hresc
                  · intro k hk
                    rcases hnewB k hk with hk1 | ⟨inst', hinst', c, hres', hdesc⟩
                    · rcases hnewA k hk1 with hk0 | ⟨c, hres', hdesc⟩
                      · exact .inl hk0
                      · exact .inr ⟨inst, .head _, c, hres', hdesc⟩
                    · exact .inr ⟨inst', .tail _ hinst', c, hres', hdesc⟩
    · -- export_instance
      intro inst st pinst st' hInv h
      simp only [export_instance] at h
      cases hres0 : inst.resolved with
      | none =>
        simp only [hres0] at h
        exact absurd h (by simp)
      | some r0 =>
        simp only [hres0] at h
        cases r0 with
        | mod c0 =>
          cases hm : export_module D fuel c0 st with
          | mk rm st1 =>
            cases rm with
            | error e =>
              simp only [hm] at h
              exact absurd h (by simp)
            | ok pmc =>
              simp only [hm] at h
              cases hcn : export_conns inst.conns with
              | error e =>
                simp only [hcn] at h
                exact absurd h (by simp)
              | ok conns =>
                simp only [hcn] at h
                injection h with h1 h2
                subst h2
                obtain ⟨hInv1, hExt1, hlk, hnew⟩ := ihm c0 st pmc st1 hInv hm
                refine ⟨hInv1, hExt1, ?_, ?_⟩
                · intro c hres'
                  injection hres' with hr
                  injection hr with hc0
                  subst hc0
                  exact alookup_mem_keys _ _ _ hlk
                · intro k hk
                  rcases hnew k hk with hold | hdesc
                  · exact .inl hold
                  · exact .inr ⟨c0, rfl, hdesc⟩
        | prim call =>
          cases hp : export_params call.params with
          | error e =>
            simp only [hp] at h
            exact absurd h (by simp)
          | ok pparams =>
            simp only [hp] at h
            cases hcn : export_conns inst.conns with
            | error e =>
              simp only [hcn] at h
              exact absurd h (by simp)
            | ok conns =>
              simp only [hcn] at h
              injection h with h1 h2
              subst h2
              refine ⟨hInv, xext_refl st, ?_, fun k hk => .inl hk⟩
              intro c hres'
              injection hres' with hr
              cases hr
        | ext call =>
          cases hee : export_external_module call.module st with
          | mk pme st1 =>
            simp only [hee] at h
            cases hp : export_params call.params with
            | error e =>
              simp only [hp] at h
              injection h with h1 h2
              exact absurd h1 (by simp)
            | ok pparams =>
              simp only [hp] at h
              cases hcn : export_conns inst.conns with
              | error e =>
                simp only [hcn] at h
                injection h with h1 h2
                exact absurd h1 (by simp)
              | ok conns =>
                simp only [hcn] at h
                injection h with h1 h2
                subst h2
                have hpres := export_external_module_preserves call.module st
                rw [hee] at hpres
                refine ⟨xinv_of_eq hpres.1 hpres.2 hInv,
                  ⟨[], by rw [hpres.1]; simp⟩, ?_, ?_⟩
                · intro c hres'
                  injection hres' with hr
                  cases hr
                · intro k hk
                  refine .inl ?_
                  unfold xkeys at hk ⊢
                  rwa [hpres.1] at hk
        | gen g =>
          simp only [] at h
          exact absurd h (by simp)

/-- The top-level export loop preserves the invariant. -/
lemma export_tops_invariant (D : Design) (rank : Nat → Nat)
    (hrank : ∀ p c, childOf D p c → rank c < rank p) :
    ∀ (tops : List Nat) (fuel : Nat) (st st' : XSt),
      XInv D st → export_tops D fuel tops st = (.ok (), st') → XInv D st' := by
  intro tops
  induction tops with
  | nil =>
    intro fuel st st' hInv h
    simp only [export_tops] at h
    injection h with _ h2
    subst h2
    exact hInv
  | cons t rest ih =>
    intro fuel st st' hInv h
    simp only [export_tops] at h
    cases hm : export_module D fuel t st with
    | mk r1 st1 =>
      cases r1 with
      | error e =>
        simp only [hm] at h
        exact absurd h (by simp)
      | ok pm =>
        simp only [hm] at h
        obtain ⟨hInv1, _, _, _⟩ :=
          (export_invariant D rank hrank fuel).1 t st pm st1 hInv hm
        exact ih fuel st1 st' hInv1 h

/-- The invariant holds in a fresh exporter. -/
lemma xinv_init (D : Design) (domain : Option String) : XInv D (initXSt domain) := by
  refine ⟨rfl, List.nodup_nil, ?_⟩
  intro p c hp
  cases hp

/-- The invariant's child ordering extends to transitive instantiation. -/
lemma xinv_trans_child {D : Design} {st : XSt} (hInv : XInv D st) :
    ∀ p c, Relation.TransGen (childOf D) p c → p ∈ xkeys st →
      c ∈ xkeys st ∧ List.indexOf c (xkeys st) < List.indexOf p (xkeys st) := by
  intro p c htg
  induction htg with
  | single h =>
    intro hp
    exact hInv.2.2 _ _ hp h
  | tail _ hedge ih =>
    intro hp
    obtain ⟨hb, hlt⟩ := ih hp
    obtain ⟨hcm, hlt2⟩ := hInv.2.2 _ _ hb hedge
    exact ⟨hcm, Nat.lt_trans hlt2 hlt⟩

/-- C2: in a successfully exported Package, every Module directly or
transitively instantiated by an exported Module appears in the Package's
modules list at a strictly earlier index than its (transitive) parent.
The hierarchy hypothesis (a rank decreasing along instantiation edges)
expresses that the design is a Module hierarchy — in the source language
instantiation cycles cannot be authored, since an Instance can only
target an already-constructed Module. -/
theorem c2_exported_package_children_precede_parents :
    ∀ (D : Design) (rank : Nat → Nat) (fuel : Nat) (tops : List Nat)
      (domain : Option String) (pkg : PPackage) (st' : XSt),
      (∀ p c, childOf D p c → rank c < rank p) →
      exporter_export D fuel tops domain = (.ok pkg, st') →
      ∀ p c, Relation.TransGen (childOf D) p c → p ∈ xkeys st' →
        ∃ pmc pmp : PModule,
          alookup st'.modules c = some pmc ∧ alookup st'.modules p = some pmp ∧
          List.indexOf c (xkeys st') < List.indexOf p (xkeys st') ∧
          pkg.modules.get? (List.indexOf c (xkeys st')) = some pmc ∧
          pkg.modules.get? (List.indexOf p (xkeys st')) = some pmp := by
  intro D rank fuel tops domain pkg st' hrank hrun p c htg hp
  unfold exporter_export at hrun
  cases ht : export_tops D fuel tops (initXSt domain) with
  | mk r st1 =>
    cases r with
    | error e =>
      simp only [ht] at hrun
      exact absurd hrun (by simp)
    | ok u =>
      cases u
      simp only [ht] at hrun
      injection hrun with h1 h2
      subst h2
      injection h1 with h1'
      have hInv' : XInv D st1 :=
        export_tops_invariant D rank hrank tops fuel (initXSt domain) st1
          (xinv_init D domain) ht
      obtain ⟨hc, hlt⟩ := xinv_trans_child hInv' p c htg hp
      obtain ⟨pmc, hpmc⟩ := mem_keys_alookup st1.modules c hc
      obtain ⟨pmp, hpmp⟩ := mem_keys_alookup st1.modules p hp
      refine ⟨pmc, pmp, hpmc, hpmp, hlt, ?_, ?_⟩
      · rw [← h1']
        show st1.pkgModules.get? _ = _
        rw [hInv'.1]
        exact alookup_snd_get? st1.modules c pmc hInv'.2.1 hpmc
      · rw [← h1']
        show st1.pkgModules.get? _ = _
        rw [hInv'.1]
        exact alookup_snd_get? st1.modules p pmp hInv'.2.1 hpmp

/-- A two-level hierarchy: module 0 ("par") instantiates module 1 ("chi"). -/
def c2parent : Module := ⟨"par", "pkg", [], [], [⟨"i", some (.mod 1), []⟩], [], [], []⟩

/-- The child module of the C2 witness design. -/
def c2child : Module := ⟨"chi", "pkg", [], [], [], [], [], []⟩

/-- The C2 witness design. -/
def c2design : Design := [c2parent, c2child]

/-- Serialized child of the C2 witness run. -/
def c2pmChild : PModule := ⟨("", "pkg.chi"), [], [], []⟩

/-- Serialized parent of the C2 witness run. -/
def c2pmParent : PModule := ⟨("", "pkg.par"), [], [], [⟨"i", ("", "pkg.chi"), [], []⟩]⟩

/-- The Package produced by the C2 witness run. -/
def c2pkg : PPackage := ⟨"", [c2pmChild, c2pmParent], []⟩

/-- The exporter state after the C2 witness run: the child completes (and
is appended) before the parent. -/
def c2st : XSt := ⟨"", [(1, c2pmChild), (0, c2pmParent)],
  [(("", "pkg.chi"), c2pmChild), (("", "pkg.par"), c2pmParent)], [],
  [c2pmChild, c2pmParent], []⟩

/-- Witness for C2: the dependency ordering at the concrete two-level
design. -/
theorem c2_exported_package_children_precede_parents_witness :
    ∃ pmc pmp : PModule,
      alookup c2st.modules 1 = some pmc ∧ alookup c2st.modules 0 = some pmp ∧
      List.indexOf 1 (xkeys c2st) < List.indexOf 0 (xkeys c2st) ∧
      c2pkg.modules.get? (List.indexOf 1 (xkeys c2st)) = some pmc ∧
      c2pkg.modules.get? (List.indexOf 0 (xkeys c2st)) = some pmp := by
  have hrank : ∀ p c, childOf c2design p c → (fun mid => 1 - mid) c < (fun mid => 1 - mid) p := by
    intro p c hcc
    obtain ⟨m, inst, hget, hmem, hres⟩ := hcc
    cases p with
    | zero =>
      injection hget with hm
      subst hm
      rcases hmem with _ | ⟨_, hmem⟩
      · injection hres with h1
        injection h1 with h2
        subst h2
        decide
      · cases hmem
    | succ p1 =>
      cases p1 with
      | zero =>
        injection hget with hm
        subst hm
        cases hmem
      | succ p2 => exact Option.noConfusion hget
  have hedge : childOf c2design 0 1 :=
    ⟨c2parent, ⟨"i", some (.mod 1), []⟩, rfl, List.Mem.head _, rfl⟩
  exact c2_exported_package_children_precede_parents c2design (fun mid => 1 - mid)
    5 [0] none c2pkg c2st hrank rfl 0 1 (Relation.TransGen.single hedge) (by decide)

/-! ## Claim C3 -/

/-- C3 amended: the collision check runs when a module's export begins, so
it fires exactly when some prior module has already completed and
registered the same qualified name; a module whose export is still in
flight has not yet registered its name.  And a cache hit (same Module
identity) returns the stored serialized Module with no error and no state
change. -/
theorem c3_name_collision_behavior :
    (∀ (D : Design) (fuel : Nat) (st : XSt) (mid : Nat) (m : Module) (cpm : PModule),
      D.get? mid = some m →
      alookup st.modules mid = none →
      m.interfaces = [] →
      alookup st.module_names (st.pkgName, m.pymoduleName ++ "." ++ m.name) = some cpm →
      export_module D (fuel + 1) mid st =
        (.error (.runtimeError
          "Cannot serialize Module due to conflicting name (Was this a generator that didn't get decorated with hdl21.generator?)"), st))
    ∧ (∀ (D : Design) (fuel : Nat) (st : XSt) (mid : Nat) (m : Module) (pm : PModule),
      D.get? mid = some m →
      alookup st.modules mid = some pm →
      export_module D (fuel + 1) mid st = (.ok pm, st)) := by
  constructor
  · intro D fuel st mid m cpm hget hmiss hifc hname
    have hqn : export_module_name st m = .error (.runtimeError
        "Cannot serialize Module due to conflicting name (Was this a generator that didn't get decorated with hdl21.generator?)") := by
      simp only [export_module_name, hname]
    simp only [export_module, hget, hmiss, hqn]
    rw [if_neg (by simp [hifc])]
  · intro D fuel st mid m pm hget hcache
    simp only [export_module, hget, hcache]

/-- Parent of the C3 counterexample: instantiates module 1 and shares its
qualified name ("pkg.dup") with it, as a distinct Module object. -/
def c3parent : Module := ⟨"dup", "pkg", [], [], [⟨"i", some (.mod 1), []⟩], [], [], []⟩

/-- Child of the C3 counterexample. -/
def c3child : Module := ⟨"dup", "pkg", [], [], [], [], [], []⟩

/-- The C3 counterexample design. -/
def c3design : Design := [c3parent, c3child]

/-- C3 counterexample: two distinct Module objects with equal computed
(domain, qualified-name) pairs, where one is exported as a dependency of
the other; the export run succeeds with no collision error — the parent's
name was computed before the child registered it, and the parent's own
registration silently overwrites the child's.  The resulting package
contains two modules with the same qualified name. -/
theorem c3_inflight_collision_counterexample :
    exceptOk (exporter_export c3design 5 [0] none).1 = true
    ∧ ((exporter_export c3design 5 [0] none).2.pkgModules.map (fun pm => pm.qn)) =
        [("", "pkg.dup"), ("", "pkg.dup")]
    ∧ c3parent ≠ c3child
    ∧ ("", c3parent.pymoduleName ++ "." ++ c3parent.name) =
        (("", c3child.pymoduleName ++ "." ++ c3child.name) : QualifiedName) := by
  refine ⟨rfl, rfl, ?_, rfl⟩
  intro h
  exact absurd (congrArg (fun m => m.instances.length) h) (by decide)

/-- A pre-registered serialized module used by the C3 witness. -/
def c3pmX : PModule := ⟨("", "pm.dup"), [], [], []⟩

/-- The module whose export collides in the C3 witness. -/
def c3mdup : Module := ⟨"dup", "pm", [], [], [], [], [], []⟩

/-- Exporter state in which ("", "pm.dup") is already registered. -/
def c3stA : XSt := ⟨"", [], [(("", "pm.dup"), c3pmX)], [], [c3pmX], []⟩

/-- Exporter state in which module identity 0 is already cached. -/
def c3stB : XSt := ⟨"", [(0, c3pmX)], [(("", "pm.dup"), c3pmX)], [], [c3pmX], []⟩

/-- Witness for C3: the collision error on a completed prior registration,
and the silent cache hit on a same-identity re-export. -/
theorem c3_name_collision_behavior_witness :
    export_module [c3mdup] 3 0 c3stA =
      (.error (.runtimeError
        "Cannot serialize Module due to conflicting name (Was this a generator that didn't get decorated with hdl21.generator?)"), c3stA)
    ∧ export_module [c3mdup] 3 0 c3stB = (.ok c3pmX, c3stB) :=
  ⟨c3_name_collision_behavior.1 [c3mdup] 2 c3stA 0 c3mdup c3pmX rfl rfl rfl rfl,
   c3_name_collision_behavior.2 [c3mdup] 2 c3stB 0 c3mdup c3pmX rfl rfl⟩

/-! ## Claim C7 -/

/-- Every elaborator function only appends to the event trace. -/
lemma elab_trace_extension (hooks : Hooks) (D : Design) : ∀ fuel : Nat,
    (∀ mid st out, elaborate_module_base hooks D fuel mid st = out →
      ∃ t, out.2.trace = st.trace ++ t)
    ∧ (∀ l st out, elaborate_instances hooks D fuel l st = out →
      ∃ t, out.2.trace = st.trace ++ t)
    ∧ (∀ l st out, elaborate_instarrays hooks D fuel l st = out →
      ∃ t, out.2.trace = st.trace ++ t)
    ∧ (∀ i st out, elaborate_instance hooks D fuel i st = out →
      ∃ t, out.2.trace = st.trace ++ t)
    ∧ (∀ a st out, elaborate_instance_array hooks D fuel a st = out →
      ∃ t, out.2.trace = st.trace ++ t)
    ∧ (∀ o st out, elaborate_instantiable hooks D fuel o st = out →
      ∃ t, out.2.trace = st.trace ++ t) := by
  intro fuel
  induction fuel with
  | zero =>
    refine ⟨?_, ?_, ?_, ?_, ?_, ?_⟩
    · intro mid st out h
      simp only [elaborate_module_base] at h
      subst h
      exact ⟨[], by simp⟩
    · intro l st out h
      cases l <;> simp only [elaborate_instances] at h <;> subst h <;> exact ⟨[], by simp⟩
    · intro l st out h
      cases l <;> simp only [elaborate_instarrays] at h <;> subst h <;> exact ⟨[], by simp⟩
    · intro i st out h
      simp only [elaborate_instance] at h
      subst h
      exact ⟨[], by simp⟩
    · intro a st out h
      simp only [elaborate_instance_array] at h
      subst h
      exact ⟨[], by simp⟩
    · intro o st out h
      simp only [elaborate_instantiable] at h
      subst h
      exact ⟨[], by simp⟩
  | succ fuel ih =>
    obtain ⟨ihm, ihi, iha, ihone, ihonearr, ihof⟩ := ih
    refine ⟨?_, ?_, ?_, ?_, ?_, ?_⟩
    · intro mid st out h
      simp only [elaborate_module_base] at h
      cases hg : D.get? mid with
      | none =>
        simp only [hg] at h
        subst h
        exact ⟨[], by simp⟩
      | some m =>
        simp only [hg] at h
        cases hc : alookup st.cache mid with
        | some pm =>
          simp only [hc] at h
          subst h
          exact ⟨[], by simp⟩
        | none =>
          simp only [hc] at h
          by_cases hn : m.name = ""
          · rw [if_pos hn] at h
            subst h
            exact ⟨[], by simp⟩
          · rw [if_neg hn] at h
            cases h1 : elaborate_instances hooks D fuel m.instances st with
            | mk r1 st1 =>
              obtain ⟨t1, ht1⟩ := ihi m.instances st (r1, st1) h1
              cases r1 with
              | error e =>
                simp only [h1] at h
                subst h
                exact ⟨t1, ht1⟩
              | ok u =>
                simp only [h1] at h
                cases h2 : elaborate_instarrays hooks D fuel m.instarrays st1 with
                | mk r2 st2 =>
                  obtain ⟨t2, ht2⟩ := iha m.instarrays st1 (r2, st2) h2
                  cases r2 with
                  | error e =>
                    simp only [h2] at h
                    subst h
                    exact ⟨t1 ++ t2, by
                      dsimp only at ht1 ht2 ⊢
                      rw [ht2, ht1, List.append_assoc]⟩
                  | ok u2 =>
                    simp only [h2] at h
                    subst h
                    refine ⟨t1 ++ t2 ++ m.bundles.map (fun b => Ev.bunElab b.name)
                      ++ [Ev.hookModule mid], ?_⟩
                    dsimp only at ht1 ht2 ⊢
                    simp [elaborate_bundles, ht2, ht1]
    · intro l st out h
      cases l with
      | nil =>
        simp only [elaborate_instances] at h
        subst h
        exact ⟨[], by simp⟩
      | cons i rest =>
        simp only [elaborate_instances] at h
        cases hi : elaborate_instance hooks D fuel i st with
        | mk r1 st1 =>
          obtain ⟨t1, ht1⟩ := ihone i st (r1, st1) hi
          cases r1 with
          | error e =>
            simp only [hi] at h
            subst h
            exact ⟨t1, ht1⟩
          | ok ires =>
            simp only [hi] at h
            obtain ⟨t2, ht2⟩ := ihi rest st1 out h
            exact ⟨t1 ++ t2, by
              dsimp only at ht1
              rw [ht2, ht1, List.append_assoc]⟩
    · intro l st out h
      cases l with
      | nil =>
        simp only [elaborate_instarrays] at h
        subst h
        exact ⟨[], by simp⟩
      | cons a rest =>
        simp only [elaborate_instarrays] at h
        cases ha : elaborate_instance_array hooks D fuel a st with
        | mk r1 st1 =>
          obtain ⟨t1, ht1⟩ := ihonearr a st (r1, st1) ha
          cases r1 with
          | error e =>
            simp only [ha] at h
            subst h
            exact ⟨t1, ht1⟩
          | ok ires =>
            simp only [ha] at h
            obtain ⟨t2, ht2⟩ := iha rest st1 out h
            exact ⟨t1 ++ t2, by
              dsimp only at ht1
              rw [ht2, ht1, List.append_assoc]⟩
    · intro i st out h
      simp only [elaborate_instance] at h
      obtain ⟨t, ht⟩ := ihof i.resolved _ out h
      exact ⟨Ev.instElab i.name :: t, by simp at ht; simp [ht]⟩
    · intro a st out h
      simp only [elaborate_instance_array] at h
      obtain ⟨t, ht⟩ := ihof a.resolved _ out h
      exact ⟨Ev.arrElab a.name :: t, by simp at ht; simp [ht]⟩
    · intro o st out h
      cases o with
      | none =>
        simp only [elaborate_instantiable] at h
        subst h
        exact ⟨[], by simp⟩
      | some r =>
        cases r with
        | mod mid =>
          simp only [elaborate_instantiable] at h
          cases hm : elaborate_module_base hooks D fuel mid st with
          | mk r1 st1 =>
            obtain ⟨t, ht⟩ := ihm mid st (r1, st1) hm
            cases r1 with
            | error e =>
              simp only [hm] at h
              subst h
              exact ⟨t, ht⟩
            | ok m1 =>
              simp only [hm] at h
              subst h
              exact ⟨t, ht⟩
        | prim c =>
          simp only [elaborate_instantiable] at h
          subst h
          exact ⟨[Ev.hookPrim c.prim.name], by simp⟩
        | ext c =>
          simp only [elaborate_instantiable] at h
          subst h
          exact ⟨[Ev.hookExt c.module.name], by simp⟩
        | gen g =>
          simp only [elaborate_instantiable] at h
          subst h
          exact ⟨[], by simp⟩

/-- A successful run of the instance loop produces one trace block per
instance, in declaration order, each beginning with that instance's
flag-disable event. -/
lemma elaborate_instances_blocks (hooks : Hooks) (D : Design) :
    ∀ (l : List Instance) (fuel : Nat) (st st' : ESt),
      elaborate_instances hooks D fuel l st = (.ok (), st') →
      ∃ ts : List (List Ev),
        st'.trace = st.trace ++ ts.join ∧ ts.length = l.length ∧
        ∀ k (hk : k < ts.length) (hk' : k < l.length),
          ∃ rest, ts.get ⟨k, hk⟩ = .instElab ((l.get ⟨k, hk'⟩).name) :: rest := by
  intro l
  induction l with
  | nil =>
    intro fuel st st' h
    simp only [elaborate_instances] at h
    injection h with h1 h2
    subst h2
    refine ⟨[], by simp, rfl, ?_⟩
    intro k hk hk'
    exact absurd hk (Nat.not_lt_zero k)
  | cons i rest ih =>
    intro fuel st st' h
    cases fuel with
    | zero =>
      simp only [elaborate_instances] at h
      exact absurd h (by simp)
    | succ fuel =>
      simp only [elaborate_instances] at h
      cases hi : elaborate_instance hooks D fuel i st with
      | mk r1 st1 =>
        cases r1 with
        | error e =>
          simp only [hi] at h
          exact absurd h (by simp)
        | ok ires =>
          simp only [hi] at h
          cases fuel with
          | zero =>
            simp only [elaborate_instance] at hi
            exact absurd hi (by simp)
          | succ fuel2 =>
            simp only [elaborate_instance] at hi
            obtain ⟨t0, ht0⟩ :=
              (elab_trace_extension hooks D fuel2).2.2.2.2.2 i.resolved _ _ hi
            obtain ⟨ts', h1', h2', h3'⟩ := ih (fuel2 + 1) st1 st' h
            refine ⟨(Ev.instElab i.name :: t0) :: ts', ?_, by simp [h2'], ?_⟩
            · simp only [h1']
              simp at ht0
              simp [ht0]
            · intro k hk hk'
              cases k with
              | zero => exact ⟨t0, rfl⟩
              | succ k2 =>
                exact h3' k2 (by simpa using hk) (by simpa using hk')

/-- The array-loop analogue of `elaborate_instances_blocks`. -/
lemma elaborate_instarrays_blocks (hooks : Hooks) (D : Design) :
    ∀ (l : List InstArray) (fuel : Nat) (st st' : ESt),
      elaborate_instarrays hooks D fuel l st = (.ok (), st') →
      ∃ ts : List (List Ev),
        st'.trace = st.trace ++ ts.join ∧ ts.length = l.length ∧
        ∀ k (hk : k < ts.length) (hk' : k < l.length),
          ∃ rest, ts.get ⟨k, hk⟩ = .arrElab ((l.get ⟨k, hk'⟩).name) :: rest := by
  intro l
  induction l with
  | nil =>
    intro fuel st st' h
    simp only [elaborate_instarrays] at h
    injection h with h1 h2
    subst h2
    refine ⟨[], by simp, rfl, ?_⟩
    intro k hk hk'
    exact absurd hk (Nat.not_lt_zero k)
  | cons a rest ih =>
    intro fuel st st' h
    cases fuel with
    | zero =>
      simp only [elaborate_instarrays] at h
      exact absurd h (by simp)
    | succ fuel =>
      simp only [elaborate_instarrays] at h
      cases ha : elaborate_instance_array hooks D fuel a st with
      | mk r1 st1 =>
        cases r1 with
        | error e =>
          simp only [ha] at h
          exact absurd h (by simp)
        | ok ires =>
          simp only [ha] at h
          cases fuel with
          | zero =>
            simp only [elaborate_instance_array] at ha
            exact absurd ha (by simp)
          | succ fuel2 =>
            simp only [elaborate_instance_array] at ha
            obtain ⟨t0, ht0⟩ :=
              (elab_trace_extension hooks D fuel2).2.2.2.2.2 a.resolved _ _ ha
            obtain ⟨ts', h1', h2', h3'⟩ := ih (fuel2 + 1) st1 st' h
            refine ⟨(Ev.arrElab a.name :: t0) :: ts', ?_, by simp [h2'], ?_⟩
            · simp only [h1']
              simp at ht0
              simp [ht0]
            · intro k hk hk'
              cases k with
              | zero => exact ⟨t0, rfl⟩
              | succ k2 =>
                exact h3' k2 (by simpa using hk) (by simpa using hk')

/-- C7: for an uncached Module, a successful `elaborate_module_base`
appends to the trace: first one block per Instance (in the Module's
declared order, each opening with that instance's elaboration event),
then one block per InstanceArray, then the BundleInstance events, and
only after all of these the invocation of the pass-specific
`elaborate_module` hook on the Module itself. -/
theorem c7_children_elaborated_before_module_hook :
    ∀ (hooks : Hooks) (D : Design) (fuel mid : Nat) (m : Module) (st : ESt)
      (result : Module) (st' : ESt),
      D.get? mid = some m →
      alookup st.cache mid = none →
      elaborate_module_base hooks D (fuel + 1) mid st = (.ok result, st') →
      ∃ tIs tAs : List (List Ev),
        st'.trace = st.trace ++ tIs.join ++ tAs.join
          ++ m.bundles.map (fun b => Ev.bunElab b.name) ++ [Ev.hookModule mid]
        ∧ tIs.length = m.instances.length
        ∧ (∀ k (hk : k < tIs.length) (hk' : k < m.instances.length),
            ∃ rest, tIs.get ⟨k, hk⟩ = .instElab ((m.instances.get ⟨k, hk'⟩).name) :: rest)
        ∧ tAs.length = m.instarrays.length
        ∧ (∀ k (hk : k < tAs.length) (hk' : k < m.instarrays.length),
            ∃ rest, tAs.get ⟨k, hk⟩ = .arrElab ((m.instarrays.get ⟨k, hk'⟩).name) :: rest) := by
  intro hooks D fuel mid m st result st' hget hmiss h
  simp only [elaborate_module_base, hget, hmiss] at h
  by_cases hn : m.name = ""
  · rw [if_pos hn] at h
    exact absurd h (by simp)
  · rw [if_neg hn] at h
    cases h1 : elaborate_instances hooks D fuel m.instances st with
    | mk r1 st1 =>
      cases r1 with
      | error e =>
        simp only [h1] at h
        exact absurd h (by simp)
      | ok u =>
        simp only [h1] at h
        cases h2 : elaborate_instarrays hooks D fuel m.instarrays st1 with
        | mk r2 st2 =>
          cases r2 with
          | error e =>
            simp only [h2] at h
            exact absurd h (by simp)
          | ok u2 =>
            simp only [h2] at h
            obtain ⟨tIs, hi1, hi2, hi3⟩ :=
              elaborate_instances_blocks hooks D m.instances fuel st st1 h1
            obtain ⟨tAs, ha1, ha2, ha3⟩ :=
              elaborate_instarrays_blocks hooks D m.instarrays fuel st1 st2 h2
            refine ⟨tIs, tAs, ?_, hi2, hi3, ha2, ha3⟩
            have hst' : st'.trace = st2.trace
                ++ m.bundles.map (fun b => Ev.bunElab b.name) ++ [Ev.hookModule mid] := by
              injection h with hA hB
              subst hB
              simp [elaborate_bundles]
            rw [hst', ha1, hi1]

/-- A concrete module exercising C7: one instance, one array, one bundle. -/
def c7mod : Module :=
  ⟨"top", "tb", [], [],
    [⟨"i1", some (.prim ⟨⟨"Mos"⟩, []⟩), []⟩],
    [⟨"a1", 2, some (.prim ⟨⟨"Mos"⟩, []⟩)⟩],
    [⟨"b1"⟩], []⟩

/-- The design holding `c7mod` at identity 0. -/
def c7design : Design := [c7mod]

/-- Witness for C7: the trace decomposition at a concrete design. -/
theorem c7_children_elaborated_before_module_hook_witness :
    ∃ tIs tAs : List (List Ev),
      (⟨[(0, c7mod)],
         [Ev.instElab "i1", Ev.hookPrim "Mos", Ev.arrElab "a1", Ev.hookPrim "Mos",
          Ev.bunElab "b1", Ev.hookModule 0]⟩ : ESt).trace =
        (⟨[], []⟩ : ESt).trace ++ tIs.join ++ tAs.join
          ++ c7mod.bundles.map (fun b => Ev.bunElab b.name) ++ [Ev.hookModule 0]
      ∧ tIs.length = c7mod.instances.length
      ∧ (∀ k (hk : k < tIs.length) (hk' : k < c7mod.instances.length),
          ∃ rest, tIs.get ⟨k, hk⟩ =
            .instElab ((c7mod.instances.get ⟨k, hk'⟩).name) :: rest)
      ∧ tAs.length = c7mod.instarrays.length
      ∧ (∀ k (hk : k < tAs.length) (hk' : k < c7mod.instarrays.length),
          ∃ rest, tAs.get ⟨k, hk⟩ =
            .arrElab ((c7mod.instarrays.get ⟨k, hk'⟩).name) :: rest) :=
  c7_children_elaborated_before_module_hook idHooks c7design 4 0 c7mod
    ⟨[], []⟩ _ _ rfl rfl rfl

/-! ## Claim C8 -/

/-- C8: a child-free Module under the base (identity) pass: elaboration
fails with the anonymous-module naming error when its name is empty, and
returns the Module itself unmodified when its name is non-empty. -/
theorem c8_childfree_module_identity_elaboration :
    ∀ (D : Design) (mid : Nat) (m : Module) (fuel : Nat),
      D.get? mid = some m →
      m.instances = [] → m.instarrays = [] → m.bundles = [] →
      ((m.name = "" →
        (elaborate idHooks D (fuel + 1) (.module mid)).1 =
          .error (.runtimeError
            "Anonymous Module cannot be elaborated (did you forget to name it?)"))
      ∧ (m.name ≠ "" →
        (elaborate idHooks D (fuel + 1) (.module mid)).1 = .ok m)) := by
  intro D mid m fuel hget h1 h2 h3
  constructor
  · intro hn
    simp [elaborate, elaborate_module_base, hget, alookup, hn]
  · intro hn
    simp [elaborate, elaborate_module_base, hget, alookup, hn, h1, h2, h3,
      elaborate_instances, elaborate_instarrays, elaborate_bundles, idHooks]

/-- A child-free module with an empty name. -/
def c8anon : Module := ⟨"", "tb", [], [], [], [], [], []⟩

/-- A child-free module with a non-empty name. -/
def c8good : Module := ⟨"good", "tb", [], [], [], [], [], []⟩

/-- Witness for C8: both branches at concrete child-free modules. -/
theorem c8_childfree_module_identity_elaboration_witness :
    (elaborate idHooks [c8anon] 3 (.module 0)).1 =
      .error (.runtimeError
        "Anonymous Module cannot be elaborated (did you forget to name it?)")
    ∧ (elaborate idHooks [c8good] 3 (.module 0)).1 = .ok c8good :=
  ⟨(c8_childfree_module_identity_elaboration [c8anon] 0 c8anon 2 rfl rfl rfl rfl).1 rfl,
   (c8_childfree_module_identity_elaboration [c8good] 0 c8good 2 rfl rfl rfl rfl).2
     (by decide)⟩

end Hdl21
